import Mathlib

/-!
# Verification of the SOC fusion engine (RevIN+GRU+UKF pipeline)

Shallow embedding, over exact rational arithmetic, of the online fusion
inference engine of the repository:

* `backend/soc_estimation.py` — `UnscentedKalmanFilter` (`__init__`,
  `predict`, `update`, `_compute_sigma_points`), `SOCEstimator.estimate_soc`
  (the batched fusion loop) and `InfluxDBLoader.load_data` (the TTL cache).
* `backend/influx_gru_revin_ukf_soc.py` — contains a near-duplicate of the
  same `UnscentedKalmanFilter` (numerically identical `predict`/`update`/
  `_compute_sigma_points` bodies) and a purely sequential inference loop.

Modelling conventions:

* `float` is modelled as `ℚ` (exact arithmetic).
* External capabilities are oracle parameters: `np.linalg.cholesky` is a
  function argument (an `Option`-valued one where the `try/except` retry
  policy of `_compute_sigma_points` matters), the torch `GRUVoltageModel`
  is an opaque function from a feature window to a scalar whose batched
  application returns per-window results in submission order, and the
  sklearn `StandardScaler.transform` / `inverse_transform` maps are opaque
  scalar functions.
* The filter is embedded twice, at the two levels the claims need:
  a generic-dimension embedding (`UKFData`, matrices over
  `Matrix (Fin d) (Fin d) ℚ`) mirroring the numpy code for arbitrary
  `dim_x = dim_z = d`, and an exact specialization `UKF1` to
  `dim_x = dim_z = 1` — the only configuration the repository ever
  constructs (`SOCEstimator.__init__` and `run_ukf_inference` both pass
  `dim_x=1, dim_z=1`) — in which every 1×1 matrix is its single entry and
  matrix transposition is the identity.  The fusion loop is embedded on
  top of `UKF1`.
-/

namespace SOC

/-- `np.clip(v, lo, hi)`: `lo` if `v < lo`, `hi` if `v > hi`, else `v`
(equal to `max lo (min v hi)` for `lo ≤ hi`). -/
def clip (v lo hi : ℚ) : ℚ := max lo (min v hi)

theorem clip_mem_Icc (v : ℚ) : 0 ≤ clip v 0 1 ∧ clip v 0 1 ≤ 1 := by
  constructor
  · exact le_max_left 0 _
  · exact max_le zero_le_one (min_le_right v 1)

/-! ## Generic-dimension UnscentedKalmanFilter

Mirrors `UnscentedKalmanFilter` of `soc_estimation.py` (lines 134–226;
the copy in `influx_gru_revin_ukf_soc.py` lines 206–366 has the same
numerical content) for state dimension `dim_x = d` and observation
dimension `dim_z = d`.  (`update` sets `z_sigma = sigma_points`, so the
numpy code is only shape-correct when `dim_z = dim_x`.) -/

/-- The mutable fields of a `UnscentedKalmanFilter` object together with
its constructor hyperparameters (`__init__`, lines 136–166).  `Q`, `R`,
`x`, `P` are initialised by `__init__` to `eye(d)*q_proc`, `eye(d)*r_meas`,
`zeros(d)`, `eye(d)*0.1` and then mutated by assignments of the callers. -/
structure UKFData (d : ℕ) where
  alpha : ℚ
  beta : ℚ
  kappa : ℚ
  Q : Matrix (Fin d) (Fin d) ℚ
  R : Matrix (Fin d) (Fin d) ℚ
  x : Fin d → ℚ
  P : Matrix (Fin d) (Fin d) ℚ

/-- `self.lambda_ = alpha**2 * (dim_x + kappa) - dim_x`. -/
def UKFData.lam {d : ℕ} (s : UKFData d) : ℚ :=
  s.alpha ^ 2 * ((d : ℚ) + s.kappa) - (d : ℚ)

/-- Number of sigma points, `self.n_sigma = 2 * dim_x + 1`. -/
def nSigma (d : ℕ) : ℕ := 2 * d + 1

/-- The mean-weight array `Wm` (length `n_sigma`), as a map from index to
entry: `Wm[0] = lambda/(d+lambda)`, `Wm[i] = 1/(2(d+lambda))` for `i ≥ 1`
(`__init__`, lines 155–161). -/
def UKFData.Wm {d : ℕ} (s : UKFData d) : ℕ → ℚ := fun i =>
  if i = 0 then s.lam / ((d : ℚ) + s.lam) else 1 / (2 * ((d : ℚ) + s.lam))

/-- The covariance-weight array `Wc`: `Wc[0] = Wm[0] + (1 - alpha² + beta)`,
`Wc[i] = Wm[i]` for `i ≥ 1`. -/
def UKFData.Wc {d : ℕ} (s : UKFData d) : ℕ → ℚ := fun i =>
  if i = 0 then s.Wm 0 + (1 - s.alpha ^ 2 + s.beta) else s.Wm i

/-- The sigma-point list built from a mean `x` and a matrix square root `L`
(`_compute_sigma_points`, lines 213–214 and 222–224): point `0` is `x`,
point `i+1` is `x + L[:,i]` and point `i+1+d` is `x - L[:,i]` for
`i = 0..d-1`; `2d+1` points in total. -/
def mkSigmaList {d : ℕ} (x : Fin d → ℚ) (L : Matrix (Fin d) (Fin d) ℚ) :
    List (Fin d → ℚ) :=
  [x] ++ ((List.finRange d).map fun i => fun r => x r + L r i)
      ++ ((List.finRange d).map fun i => fun r => x r - L r i)

/-- The diagonal regularisation constant `1e-8` of `_compute_sigma_points`. -/
def regEps : ℚ := 1e-8

/-- `_compute_sigma_points(self, x, P)` (lines 212–226).  `chol` is the
oracle for `np.linalg.cholesky`, returning `none` when the factorisation
raises `LinAlgError`.  The code tries `cholesky((d + lambda) * P)`; on
failure it retries once on `P_stable = P + eye(d)*1e-8`; a second failure
propagates (`none`). -/
def computeSigmaPoints {d : ℕ} (lam : ℚ)
    (chol : Matrix (Fin d) (Fin d) ℚ → Option (Matrix (Fin d) (Fin d) ℚ))
    (x : Fin d → ℚ) (P : Matrix (Fin d) (Fin d) ℚ) :
    Option (List (Fin d → ℚ)) :=
  match chol ((((d : ℚ) + lam)) • P) with
  | some L => some (mkSigmaList x L)
  | none =>
    match chol (((d : ℚ) + lam) • (P + regEps • (1 : Matrix (Fin d) (Fin d) ℚ))) with
    | some L => some (mkSigmaList x L)
    | none => none

/-- `np.linalg.inv` on an invertible matrix, via the adjugate formula
`A⁻¹ = det(A)⁻¹ • adj(A)` (kept executable over `ℚ`; `np.linalg.inv`
raises on a singular input, a case the callers exclude by construction
since `R` keeps `Pzz` invertible — spec §4.3). -/
def matInv {d : ℕ} (A : Matrix (Fin d) (Fin d) ℚ) : Matrix (Fin d) (Fin d) ℚ :=
  A.det⁻¹ • A.adjugate

/-- `UnscentedKalmanFilter.update(self, z, z_pred)` (lines 187–210),
translated statement by statement: sigma points are regenerated from the
stored (predicted) `self.x`, `self.P`; the observation transform is the
identity (`z_sigma = sigma_points`); `z_pred_mean` is the `Wm`-weighted
sum (`np.sum` of a comprehension); `Pzz` starts from `R.copy()` and `Pxz`
from zeros and both are accumulated in a single sequential `for` loop;
then gain, residual, state update with `np.clip` on component 0, and the
symmetrised covariance `(P_updated + P_updated.T)/2`.  Returns `none` when
`_compute_sigma_points` raises. -/
def UKFData.update {d : ℕ} [NeZero d]
    (chol : Matrix (Fin d) (Fin d) ℚ → Option (Matrix (Fin d) (Fin d) ℚ))
    (s : UKFData d) (z zpred : Fin d → ℚ) :
    Option ((Fin d → ℚ) × Matrix (Fin d) (Fin d) ℚ) :=
  match computeSigmaPoints s.lam chol s.x s.P with
  | none => none
  | some sp =>
    let zsig := sp
    let zPredMean : Fin d → ℚ :=
      ((List.range (nSigma d)).map fun i => s.Wm i • zsig.getD i 0).sum
    let acc := (List.range (nSigma d)).foldl
      (fun acc i =>
        let zdiff := zsig.getD i 0 - zPredMean
        let xdiff := sp.getD i 0 - s.x
        (acc.1 + s.Wc i • Matrix.vecMulVec zdiff zdiff,
         acc.2 + s.Wc i • Matrix.vecMulVec xdiff zdiff))
      (s.R, (0 : Matrix (Fin d) (Fin d) ℚ))
    let K := acc.2 * matInv acc.1
    let residual := z - zpred
    let xup := s.x + K.mulVec residual
    let xup2 := Function.update xup 0 (clip (xup 0) 0 1)
    let Pup := s.P - K * acc.1 * K.transpose
    some (xup2, (1 / 2 : ℚ) • (Pup + Pup.transpose))

/-- The observation update as the specification states it (spec §4.3 /
claim C2): over sigma points regenerated from the predicted mean and
covariance, `Pzz = R + Σ Wc[i]·Δz·Δzᵗ` and `Pxz = Σ Wc[i]·Δx·Δzᵗ` as
closed sums, `K = Pxz · Pzz⁻¹`, updated state
`x_pred + K·(z − zPred)` with the SOC component clamped to `[0,1]`, and
updated covariance `(P' + P'ᵗ)/2` with `P' = P_pred − K·Pzz·Kᵗ`. -/
def UKFData.updateSpec {d : ℕ} [NeZero d]
    (chol : Matrix (Fin d) (Fin d) ℚ → Option (Matrix (Fin d) (Fin d) ℚ))
    (s : UKFData d) (z zpred : Fin d → ℚ) :
    Option ((Fin d → ℚ) × Matrix (Fin d) (Fin d) ℚ) :=
  match computeSigmaPoints s.lam chol s.x s.P with
  | none => none
  | some sp =>
    let zPredMean : Fin d → ℚ := ∑ i ∈ Finset.range (nSigma d), s.Wm i • sp.getD i 0
    let Pzz := s.R + ∑ i ∈ Finset.range (nSigma d),
      s.Wc i • Matrix.vecMulVec (sp.getD i 0 - zPredMean) (sp.getD i 0 - zPredMean)
    let Pxz := ∑ i ∈ Finset.range (nSigma d),
      s.Wc i • Matrix.vecMulVec (sp.getD i 0 - s.x) (sp.getD i 0 - zPredMean)
    let K := Pxz * matInv Pzz
    let xup := s.x + K.mulVec (z - zpred)
    let Pup := s.P - K * Pzz * K.transpose
    some (Function.update xup 0 (clip (xup 0) 0 1),
          (1 / 2 : ℚ) • (Pup + Pup.transpose))

/-! ## The deployed specialization: `dim_x = dim_z = 1`

Both construction sites (`SOCEstimator.__init__`, `soc_estimation.py`
lines 366–371, and `run_ukf_inference`, `influx_gru_revin_ukf_soc.py`
lines 617–622) build the filter with `dim_x=1, dim_z=1`; `alpha=1e-3`,
`beta=2.0`, `kappa=0.0` keep their defaults.  In this configuration every
matrix is 1×1 and is identified with its single rational entry
(`np.outer` of scalars is their product, `inv` is the field inverse,
transposition is the identity); `n_sigma = 3`.  The scalar Cholesky
oracle `chol1` stands for `np.linalg.cholesky` on the 1×1 matrix
`[(1+lambda)*P]`, i.e. its positive square root, as produced by the
(possibly once-regularised) factorisation of `_compute_sigma_points`;
runs where both factorisations raise produce no output at all, and that
failure path is modelled by the generic `computeSigmaPoints` above. -/

/-- Fields of the `dim_x = dim_z = 1` filter: hyperparameters, the scalar
process/measurement noises (`Q = [[q_proc]]`, `R = [[r_meas]]`) and the
scalar state `x` and covariance `P`. -/
structure UKF1 where
  alpha : ℚ
  beta : ℚ
  kappa : ℚ
  qproc : ℚ
  rmeas : ℚ
  x : ℚ
  P : ℚ

/-- `lambda_ = alpha**2 * (1 + kappa) - 1` at `dim_x = 1`. -/
def UKF1.lam (s : UKF1) : ℚ := s.alpha ^ 2 * (1 + s.kappa) - 1

/-- The weight array `Wm` at `dim_x = 1` (indices `0,1,2`). -/
def UKF1.Wm (s : UKF1) : Fin 3 → ℚ := fun i =>
  if i = 0 then s.lam / (1 + s.lam) else 1 / (2 * (1 + s.lam))

/-- The weight array `Wc` at `dim_x = 1`. -/
def UKF1.Wc (s : UKF1) : Fin 3 → ℚ := fun i =>
  if i = 0 then s.Wm 0 + (1 - s.alpha ^ 2 + s.beta) else s.Wm i

/-- `_compute_sigma_points` at `dim_x = 1` on mean `x` and covariance `P`:
`[x, x + L, x - L]` where `L = chol1((1 + lambda) * P)` is the factor the
(possibly retried) Cholesky call produced. -/
def UKF1.sigmaPoints (chol1 : ℚ → ℚ) (s : UKF1) (x P : ℚ) : Fin 3 → ℚ :=
  let L := chol1 ((1 + s.lam) * P)
  ![x, x + L, x - L]

/-- `UnscentedKalmanFilter.predict(self, u, dt, capacity_ah, coulomb_eff)`
(lines 168–185) at `dim_x = 1`: each sigma point is pushed through the
coulomb-counting process model
`soc' = clip(soc - (coulomb_eff*current*dt)/(capacity_ah*3600), 0, 1)`;
the predicted mean is the `Wm`-weighted sum and the predicted covariance
is `Q + Σ Wc[i]·diff²`.  Returns the pair `(x_pred, P_pred)`; the object's
fields are not written (see `UKF1.predictM`). -/
def UKF1.predict (chol1 : ℚ → ℚ) (s : UKF1)
    (u dt capacityAh coulombEff : ℚ) : ℚ × ℚ :=
  let sp := s.sigmaPoints chol1 s.x s.P
  let spPred : Fin 3 → ℚ := fun i =>
    clip (sp i - (coulombEff * u * dt) / (capacityAh * 3600)) 0 1
  let xPred := ∑ i : Fin 3, s.Wm i * spPred i
  let PPred := s.qproc + ∑ i : Fin 3, s.Wc i * (spPred i - xPred) ^ 2
  (xPred, PPred)

/-- `UnscentedKalmanFilter.update(self, z, z_pred)` (lines 187–210) at
`dim_x = dim_z = 1`: sigma points regenerated from the stored `x`, `P`;
identity observation transform; `Pzz = r_meas + Σ Wc·Δz²`,
`Pxz = Σ Wc·Δx·Δz`, `K = Pxz·Pzz⁻¹`; the updated state is clipped to
`[0,1]` and the 1×1 covariance `P - K·Pzz·K` is symmetrised (transposition
of a 1×1 matrix is the identity, so `(P' + P'ᵗ)/2 = (P' + P')/2`). -/
def UKF1.update (chol1 : ℚ → ℚ) (s : UKF1) (z zpred : ℚ) : ℚ × ℚ :=
  let sp := s.sigmaPoints chol1 s.x s.P
  let zsig := sp
  let zPredMean := ∑ i : Fin 3, s.Wm i * zsig i
  let Pzz := s.rmeas + ∑ i : Fin 3, s.Wc i * (zsig i - zPredMean) ^ 2
  let Pxz := ∑ i : Fin 3, s.Wc i * (sp i - s.x) * (zsig i - zPredMean)
  let K := Pxz * Pzz⁻¹
  let xup := s.x + K * (z - zpred)
  let Pup := s.P - K * Pzz * K
  (clip xup 0 1, (Pup + Pup) / 2)

/-- `predict` as a state transformer on the object: the method body
assigns no `self` field (`P_pred` grows out of `self.Q.copy()`, all other
writes hit fresh local arrays), so the carried object is returned
unchanged next to the method's return value. -/
def UKF1.predictM (chol1 : ℚ → ℚ) (s : UKF1)
    (u dt capacityAh coulombEff : ℚ) : UKF1 × (ℚ × ℚ) :=
  (s, s.predict chol1 u dt capacityAh coulombEff)

/-- `update` as a state transformer on the object: the method body assigns
no `self` field (`Pzz` grows out of `self.R.copy()`, `x_updated` is a
fresh array), so the carried object is returned unchanged next to the
method's return value. -/
def UKF1.updateM (chol1 : ℚ → ℚ) (s : UKF1) (z zpred : ℚ) :
    UKF1 × (ℚ × ℚ) :=
  (s, s.update chol1 z zpred)

/-! ## The batched fusion loop (`SOCEstimator.estimate_soc`)

`soc_estimation.py`, lines 373–514.  The loop body (lines 425–481) is
embedded step by step.  External data and capabilities appear as fields of
`LoopCfg`: the scaled input columns (`current_scaled`, `temp_scaled`,
produced by `StandardScaler.fit_transform` before the loop), the raw
`current` and `voltage` columns, the sample spacing `dt`, the opaque GRU
voltage model (whose batched call `self.model(batch_tensor)` returns one
prediction per submitted window, in submission order), the opaque
`scaler_soc.transform` / `scaler_volt.inverse_transform` maps and the
scalar Cholesky oracle. -/

/-- One feature vector `[current_scaled[i], temp_scaled[i], soc_scaled[i-1]]`
(lines 427–431). -/
abbrev Feature := ℚ × ℚ × ℚ

/-- A feature window: the snapshot `np.array(window_buffer)` queued into
`batch_buffer`. -/
abbrev Window := List Feature

/-- Configuration and environment of one `estimate_soc` call. -/
structure LoopCfg where
  seqLen : ℕ
  batchSize : ℕ
  capacityAh : ℚ
  coulombEff : ℚ
  dt : ℚ
  model : Window → ℚ
  tSoc : ℚ → ℚ
  invVolt : ℚ → ℚ
  chol1 : ℚ → ℚ
  currentScaled : List ℚ
  tempScaled : List ℚ
  current : List ℚ
  voltage : List ℚ
  n : ℕ

/-- The loop-carried state of `estimate_soc`: the mutable `soc_scaled`
array, the sliding `window_buffer`, the pending `batch_buffer`, the
filter object and the three output accumulators. -/
structure LoopState where
  socScaled : List ℚ
  windowBuf : List Feature
  batchBuf : List Window
  ukf : UKF1
  socEstimates : List ℚ
  voltagePredictions : List ℚ
  voltageActual : List ℚ

/-- The per-window body of the batch-flush loop (lines 458–479) at a given
resolved array index `ai = actual_idx` and model output `pred`:
UKF predict on `u = [current[actual_idx]]` followed by assignment of the
returned pair to `ukf.x`/`ukf.P`; inverse-scaling of the model output and
recording of predicted/actual voltage; UKF update on
`z = [voltage[actual_idx]]`, `z_pred = [v_pred]` followed by assignment of
the returned pair; appending the fresh SOC estimate; and the write
`soc_scaled[actual_idx] = scaler_soc.transform([[soc_est]])`.

CAUTION — this definition consumes the model output row as a clean
scalar, i.e. it renders the *intended* read of line 465 (the one the
sequential sibling `run_ukf_inference` performs on its `(1, 1)` output at
`influx_gru_revin_ukf_soc.py:667`).  The batched code as written instead
executes `pred[0, 0]` on a row of shape `(1,)` and raises `IndexError`
before the first update of every flush: that error path is rendered
faithfully by `applyUKFStepE` / `flushBatchE` / `estimateSocE` below, and
is the subject of claims C4 and C8.  Statements proved over this repaired
body therefore describe the design the code aims at, not a completed run
of the batched path; the warm-up-only runs (claim C7) never reach it. -/
def applyUKFStep (cfg : LoopCfg) (ai : ℕ) (pred : ℚ) (st : LoopState) :
    LoopState :=
  let u := cfg.current.getD ai 0
  let pr := st.ukf.predict cfg.chol1 u cfg.dt cfg.capacityAh cfg.coulombEff
  let ukf1 := { st.ukf with x := pr.1, P := pr.2 }
  let vPred := cfg.invVolt pred
  let z := cfg.voltage.getD ai 0
  let upd := ukf1.update cfg.chol1 z vPred
  let ukf2 := { ukf1 with x := upd.1, P := upd.2 }
  { st with
    ukf := ukf2,
    voltagePredictions := st.voltagePredictions ++ [vPred],
    voltageActual := st.voltageActual ++ [z],
    socEstimates := st.socEstimates ++ [upd.1],
    socScaled := st.socScaled.set ai (cfg.tSoc upd.1) }

/-- One iteration of the `for j, (pred, _) in enumerate(...)` loop inside
the flush (lines 453–479): `actual_idx = i - len(batch_buffer) + j + 1`
(Python integer arithmetic, hence `ℤ`); indices `≥ len(data)` are skipped
(line 455). -/
def flushStep (cfg : LoopCfg) (i B : ℕ) (st : LoopState) (jp : ℕ × ℚ) :
    LoopState :=
  let actualIdx : ℤ := (i : ℤ) - (B : ℤ) + (jp.1 : ℤ) + 1
  if (cfg.n : ℤ) ≤ actualIdx then st
  else applyUKFStep cfg actualIdx.toNat jp.2 st

/-- The batch flush (lines 448–481): one batched model call over the
queued windows (`batch_preds`, one output per window in submission order),
then the sequential per-window loop, then `batch_buffer = []`.  Like
`applyUKFStep`, this models the intent-repaired per-row scalar read of
line 465; the faithful error path, in which the real flush dies at its
first window, is `flushBatchE` below. -/
def flushBatch (cfg : LoopCfg) (i : ℕ) (st : LoopState) : LoopState :=
  let preds := st.batchBuf.map cfg.model
  let B := st.batchBuf.length
  let st1 := preds.enum.foldl (flushStep cfg i B) st
  { st1 with batchBuf := [] }

/-- One iteration of `for i in range(1, len(data))` (lines 426–481):
build the feature vector from `soc_scaled[i-1]`, push it; while
`len(window_buffer) < seq_len` emit warm-up placeholders (previous SOC
estimate, raw voltage as both prediction and actual) and continue;
otherwise trim the window to `seq_len`, queue it, and flush when the batch
is full or `i == len(data) - 1`. -/
def loopStep (cfg : LoopCfg) (st : LoopState) (i : ℕ) : LoopState :=
  let features : Feature :=
    (cfg.currentScaled.getD i 0, cfg.tempScaled.getD i 0,
     st.socScaled.getD (i - 1) 0)
  let wb := st.windowBuf ++ [features]
  if wb.length < cfg.seqLen then
    { st with
      windowBuf := wb,
      socEstimates := st.socEstimates ++ [st.socEstimates.getLastD 0],
      voltagePredictions := st.voltagePredictions ++ [cfg.voltage.getD i 0],
      voltageActual := st.voltageActual ++ [cfg.voltage.getD i 0] }
  else
    let wb2 := if cfg.seqLen < wb.length then wb.drop 1 else wb
    let st1 := { st with windowBuf := wb2, batchBuf := st.batchBuf ++ [wb2] }
    if cfg.batchSize ≤ st1.batchBuf.length ∨ i = cfg.n - 1 then
      flushBatch cfg i st1
    else st1

/-- `SOCEstimator.estimate_soc` after its data preparation (lines
404–482): the filter starts from the estimator's UKF with
`alpha=1e-3, beta=2, kappa=0` and `x[0]` seeded with the initial SOC
`x0` (the first label `/100` when labels are used, else `1.0`; covariance
`P0 = 0.1` at construction); `soc_estimates` starts as `[ukf.x[0]]`; the
loop runs `i = 1 .. n-1` over the `n` input samples.  The returned state
carries the three output arrays. -/
def initState (qp rm x0 P0 : ℚ) (socScaled0 : List ℚ) : LoopState :=
  { socScaled := socScaled0, windowBuf := [], batchBuf := [],
    ukf := { alpha := 1 / 1000, beta := 2, kappa := 0,
             qproc := qp, rmeas := rm, x := x0, P := P0 },
    socEstimates := [x0], voltagePredictions := [], voltageActual := [] }

def estimateSoc (cfg : LoopCfg) (qp rm x0 P0 : ℚ) (socScaled0 : List ℚ) :
    LoopState :=
  (List.range' 1 (cfg.n - 1)).foldl (loopStep cfg)
    (initState qp rm x0 P0 socScaled0)

/-- Reference sequential processing of a batch, as the claim states it:
the model outputs (already obtained, in submission order) are consumed
one after the other, the `k`-th being applied at array index `base + k`;
each step's fresh estimate is written back before the next step runs. -/
def seqUpdates (cfg : LoopCfg) (base : ℕ) (st : LoopState) :
    List ℚ → LoopState
  | [] => st
  | p :: rest => seqUpdates cfg (base + 1) (applyUKFStep cfg base p st) rest

/-! ## The batched model output's shape, and the `IndexError` of the flush

`batch_preds = self.model(batch_tensor).cpu().numpy()` (line 450) has
shape `(B, 1)`: the voltage head of `GRUVoltageModel` ends in
`nn.Linear(hidden_size // 2, 1)`, so the batched forward pass returns one
column.  Iterating `zip(batch_preds, ...)` (line 453) therefore yields
rows `pred` of shape `(1,)`, and line 465 executes
`v_pred_scaled = pred[0, 0]` — two indices into a rank-1 array — which
raises `IndexError: too many indices for array` on the *first* window of
every flush, after the UKF predict and its assignments (lines 458–462)
but before any voltage output, UKF update or SOC estimate is produced.
The exception propagates out of `estimate_soc`, which returns nothing.
(The sequential sibling `run_ukf_inference` indexes its `(1, 1)` output
with `[0, 0]` correctly, `influx_gru_revin_ukf_soc.py:667`.)

To render this faithfully, numpy values are modelled with their rank:
indexing selects from an array, and supplying more indices than the rank
— i.e. indexing a scalar — fails, exactly numpy's rule.  The crash then
follows from the shapes alone. -/

/-- A numpy value: a scalar, or an array of values (the rank is the
nesting depth). -/
inductive NpVal where
  | scalar (v : ℚ)
  | arr (elems : List NpVal)

/-- One indexing step `a[i]`: selects element `i` of an array (out of
range raises, `none`); applied to a scalar — i.e. when more indices are
supplied than the value has axes — numpy raises
`IndexError: too many indices`, modelled as `none`. -/
def NpVal.index (a : NpVal) (i : ℕ) : Option NpVal :=
  match a with
  | scalar _ => none
  | arr l => l[i]?

/-- `a[i, j]`. -/
def NpVal.index2 (a : NpVal) (i j : ℕ) : Option NpVal :=
  (a.index i).bind fun b => b.index j

/-- A value used where Python needs one number (scaler input). -/
def NpVal.toScalar : NpVal → Option ℚ
  | scalar v => some v
  | arr _ => none

/-- The per-window flush body with line 465 rendered faithfully: `pred`
is one row of the `(B, 1)` batched output.  The UKF predict and the
assignments of lines 458–462 precede the read `pred[0, 0]` (they complete
on the estimator object), but the `IndexError` then propagates (`none`)
and nothing after it — voltage outputs, UKF update, SOC estimate,
`soc_scaled` write — executes.  On a row of shape `(1,)` the read always
fails; a `(1, 1)` row (the sequential sibling's case) would succeed. -/
def applyUKFStepE (cfg : LoopCfg) (ai : ℕ) (pred : NpVal) (st : LoopState) :
    Option LoopState :=
  let u := cfg.current.getD ai 0
  let pr := st.ukf.predict cfg.chol1 u cfg.dt cfg.capacityAh cfg.coulombEff
  let ukf1 := { st.ukf with x := pr.1, P := pr.2 }
  match (pred.index2 0 0).bind NpVal.toScalar with
  | none => none
  | some vps =>
    let vPred := cfg.invVolt vps
    let z := cfg.voltage.getD ai 0
    let upd := ukf1.update cfg.chol1 z vPred
    let ukf2 := { ukf1 with x := upd.1, P := upd.2 }
    some { st with
      ukf := ukf2,
      voltagePredictions := st.voltagePredictions ++ [vPred],
      voltageActual := st.voltageActual ++ [z],
      socEstimates := st.socEstimates ++ [upd.1],
      socScaled := st.socScaled.set ai (cfg.tSoc upd.1) }

/-- `flushStep` with the faithful row type and error propagation. -/
def flushStepE (cfg : LoopCfg) (i B : ℕ) (st : LoopState) (jp : ℕ × NpVal) :
    Option LoopState :=
  let actualIdx : ℤ := (i : ℤ) - (B : ℤ) + (jp.1 : ℤ) + 1
  if (cfg.n : ℤ) ≤ actualIdx then some st
  else applyUKFStepE cfg actualIdx.toNat jp.2 st

/-- The batch flush with the batched model output carried at its true
shape `(B, 1)`: one row `[model w]` per queued window.  The per-window
loop short-circuits on the raised `IndexError`. -/
def flushBatchE (cfg : LoopCfg) (i : ℕ) (st : LoopState) :
    Option LoopState :=
  let batchPreds : List NpVal :=
    st.batchBuf.map fun w => NpVal.arr [NpVal.scalar (cfg.model w)]
  let B := st.batchBuf.length
  (batchPreds.enum.foldlM (fun s jp => flushStepE cfg i B s jp) st).map
    fun st1 => { st1 with batchBuf := [] }

/-- `loopStep` with the faithful flush; an exception anywhere aborts the
whole `for` loop. -/
def loopStepE (cfg : LoopCfg) (st : LoopState) (i : ℕ) :
    Option LoopState :=
  let features : Feature :=
    (cfg.currentScaled.getD i 0, cfg.tempScaled.getD i 0,
     st.socScaled.getD (i - 1) 0)
  let wb := st.windowBuf ++ [features]
  if wb.length < cfg.seqLen then
    some { st with
      windowBuf := wb,
      socEstimates := st.socEstimates ++ [st.socEstimates.getLastD 0],
      voltagePredictions := st.voltagePredictions ++ [cfg.voltage.getD i 0],
      voltageActual := st.voltageActual ++ [cfg.voltage.getD i 0] }
  else
    let wb2 := if cfg.seqLen < wb.length then wb.drop 1 else wb
    let st1 := { st with windowBuf := wb2, batchBuf := st.batchBuf ++ [wb2] }
    if cfg.batchSize ≤ st1.batchBuf.length ∨ i = cfg.n - 1 then
      flushBatchE cfg i st1
    else some st1

/-- `SOCEstimator.estimate_soc` with the error path rendered faithfully:
`some st` is a normal return carrying the output arrays, `none` a raised
exception — the caller receives no arrays at all.  (The estimator object
does retain the predict assignment made before the crash, but the
function's result, which the claims are about, is lost.) -/
def estimateSocE (cfg : LoopCfg) (qp rm x0 P0 : ℚ) (socScaled0 : List ℚ) :
    Option LoopState :=
  (List.range' 1 (cfg.n - 1)).foldlM (loopStepE cfg)
    (initState qp rm x0 P0 socScaled0)

/-! ## Provenance-tagged twin of the fusion loop

This twin replays the *intent-repaired* loop (`estimateSoc`, i.e. with
line 465 reading its row's scalar as the sequential sibling does), since
only that semantics ever completes a flush.  To state the batching
data-flow property of the design the loop is replayed
with each `soc_scaled` cell carrying a ghost provenance tag: `none` for a
value present before the loop started, `some b` for a value written by the
flush of batch number `b` (batches are numbered `0, 1, …` in flush order).
The tags are invisible to the model — the batched call receives exactly
the projected windows — and erasing them recovers `estimateSoc` exactly
(`estimateSocT_proj` below). -/

/-- A `soc_scaled` cell with its ghost provenance tag. -/
abbrev TCell := ℚ × Option ℕ

/-- A feature vector whose `soc_scaled[i-1]` component keeps its tag. -/
abbrev TFeature := ℚ × ℚ × TCell

/-- A tagged feature window. -/
abbrev TWindow := List TFeature

/-- Tagged loop state; `batchNo` counts completed flushes. -/
structure TLoopState where
  socScaled : List TCell
  windowBuf : List TFeature
  batchBuf : List TWindow
  ukf : UKF1
  socEstimates : List ℚ
  voltagePredictions : List ℚ
  voltageActual : List ℚ
  batchNo : ℕ

/-- Drop the tag of a feature vector. -/
def projFeature (f : TFeature) : Feature := (f.1, f.2.1, f.2.2.1)

/-- Drop the tags of a window. -/
def projWindow (w : TWindow) : Window := w.map projFeature

/-- Drop all ghost data of a tagged loop state. -/
def projState (st : TLoopState) : LoopState :=
  { socScaled := st.socScaled.map Prod.fst,
    windowBuf := st.windowBuf.map projFeature,
    batchBuf := st.batchBuf.map projWindow,
    ukf := st.ukf,
    socEstimates := st.socEstimates,
    voltagePredictions := st.voltagePredictions,
    voltageActual := st.voltageActual }

/-- Tagged `applyUKFStep`: identical arithmetic; the write into
`soc_scaled` is tagged with the current batch number `b`. -/
def applyUKFStepT (cfg : LoopCfg) (b ai : ℕ) (pred : ℚ) (st : TLoopState) :
    TLoopState :=
  let u := cfg.current.getD ai 0
  let pr := st.ukf.predict cfg.chol1 u cfg.dt cfg.capacityAh cfg.coulombEff
  let ukf1 := { st.ukf with x := pr.1, P := pr.2 }
  let vPred := cfg.invVolt pred
  let z := cfg.voltage.getD ai 0
  let upd := ukf1.update cfg.chol1 z vPred
  let ukf2 := { ukf1 with x := upd.1, P := upd.2 }
  { st with
    ukf := ukf2,
    voltagePredictions := st.voltagePredictions ++ [vPred],
    voltageActual := st.voltageActual ++ [z],
    socEstimates := st.socEstimates ++ [upd.1],
    socScaled := st.socScaled.set ai (cfg.tSoc upd.1, some b) }

/-- Tagged `flushStep`. -/
def flushStepT (cfg : LoopCfg) (b i B : ℕ) (st : TLoopState) (jp : ℕ × ℚ) :
    TLoopState :=
  let actualIdx : ℤ := (i : ℤ) - (B : ℤ) + (jp.1 : ℤ) + 1
  if (cfg.n : ℤ) ≤ actualIdx then st
  else applyUKFStepT cfg b actualIdx.toNat jp.2 st

/-- Tagged `flushBatch`: the model sees the projected (tag-free) windows;
afterwards the batch counter advances. -/
def flushBatchT (cfg : LoopCfg) (i : ℕ) (st : TLoopState) : TLoopState :=
  let preds := (st.batchBuf.map projWindow).map cfg.model
  let B := st.batchBuf.length
  let st1 := preds.enum.foldl (flushStepT cfg st.batchNo i B) st
  { st1 with batchBuf := [], batchNo := st.batchNo + 1 }

/-- Tagged `loopStep`. -/
def loopStepT (cfg : LoopCfg) (st : TLoopState) (i : ℕ) : TLoopState :=
  let features : TFeature :=
    (cfg.currentScaled.getD i 0, cfg.tempScaled.getD i 0,
     st.socScaled.getD (i - 1) (0, none))
  let wb := st.windowBuf ++ [features]
  if wb.length < cfg.seqLen then
    { st with
      windowBuf := wb,
      socEstimates := st.socEstimates ++ [st.socEstimates.getLastD 0],
      voltagePredictions := st.voltagePredictions ++ [cfg.voltage.getD i 0],
      voltageActual := st.voltageActual ++ [cfg.voltage.getD i 0] }
  else
    let wb2 := if cfg.seqLen < wb.length then wb.drop 1 else wb
    let st1 := { st with windowBuf := wb2, batchBuf := st.batchBuf ++ [wb2] }
    if cfg.batchSize ≤ st1.batchBuf.length ∨ i = cfg.n - 1 then
      flushBatchT cfg i st1
    else st1

/-- The tagged initial state of `estimate_soc`: all pre-loop `soc_scaled`
values carry tag `none`. -/
def initStateT (qp rm x0 P0 : ℚ) (socScaled0 : List ℚ) : TLoopState :=
  { socScaled := socScaled0.map fun v => (v, none),
    windowBuf := [], batchBuf := [],
    ukf := { alpha := 1 / 1000, beta := 2, kappa := 0,
             qproc := qp, rmeas := rm, x := x0, P := P0 },
    socEstimates := [x0], voltagePredictions := [], voltageActual := [],
    batchNo := 0 }

/-- Tagged `estimate_soc`. -/
def estimateSocT (cfg : LoopCfg) (qp rm x0 P0 : ℚ) (socScaled0 : List ℚ) :
    TLoopState :=
  (List.range' 1 (cfg.n - 1)).foldl (loopStepT cfg)
    (initStateT qp rm x0 P0 socScaled0)

/-- The tag of a cell is from a batch strictly before `b` (or initial). -/
def TagBefore (b : ℕ) (c : TCell) : Prop := ∀ t, c.2 = some t → t < b

/-- All `soc_scaled` reads embedded anywhere in a tagged window come from
before batch `b`. -/
def WindowBefore (b : ℕ) (w : TWindow) : Prop :=
  ∀ f ∈ w, TagBefore b f.2.2

/-- The provenance invariant: every `soc_scaled` cell, every feature held
in the window buffer and every feature inside a queued (not yet flushed)
window carries a tag from a strictly earlier batch (or is an initial
value).  In particular, at the moment a batch is flushed — when the model
is applied to exactly the queued windows — none of their `soc_scaled`
components can be an estimate computed by that same batch. -/
def TInv (st : TLoopState) : Prop :=
  (∀ c ∈ st.socScaled, TagBefore st.batchNo c)
  ∧ (∀ f ∈ st.windowBuf, TagBefore st.batchNo f.2.2)
  ∧ (∀ w ∈ st.batchBuf, WindowBefore st.batchNo w)

/-! ## The data cache (`InfluxDBLoader.load_data`)

`soc_estimation.py`, lines 249–329.  The dict `self._cache` maps the key
string to `(table, createdAt)`; `time.time()` at the lookup and at the
store are separate readings (`tCheck`, `tStore`).  The InfluxDB query
itself is an external capability (`fetch`, `none` when the query raises —
the exception is re-raised, line 329).  Tables are opaque (`T`); Python's
defensive `.copy()` on hit and on store is the identity here since the
embedding is immutable. -/

/-- `cache_key = f"{device}_{start}_{stop}_{downsample}"` (line 257);
`device` is `Optional[str]`, formatted as `"None"` when absent. -/
def cacheKey (device : Option String) (start stop downsample : String) :
    String :=
  (match device with | some s => s | none => "None") ++ "_" ++ start ++ "_"
    ++ stop ++ "_" ++ downsample

/-- `load_data` reduced to its cache contract: look up `key`; with caching
enabled and a present entry younger than `ttl`, return it and leave the
cache unchanged (lines 260–264); otherwise run the query and, on success,
overwrite the entry with `(result, time.time())` (lines 321–323); a query
failure propagates (lines 327–329).  Returns the table together with the
cache after the call. -/
def loadData {T : Type} (useCache : Bool) (ttl : ℚ)
    (cache : String → Option (T × ℚ)) (key : String) (tCheck tStore : ℚ)
    (fetch : Option T) : Option (T × (String → Option (T × ℚ))) :=
  let hit : Option T :=
    match useCache, cache key with
    | true, some (data, created) =>
        if tCheck - created < ttl then some data else none
    | _, _ => none
  match hit with
  | some data => some (data, cache)
  | none =>
    match fetch with
    | none => none
    | some tbl =>
      some (tbl,
        if useCache then
          fun k => if k = key then some (tbl, tStore) else cache k
        else cache)

/-! ## Concrete instances used by closed witnesses and counterexamples -/

/-- All SOC estimates accumulated so far lie in `[0,1]`. -/
def EstOK (st : LoopState) : Prop :=
  ∀ e ∈ st.socEstimates, 0 ≤ e ∧ e ≤ 1

/-- Concrete filter object for the claim C1 counterexample: the default
hyperparameters of both construction sites (`alpha=1e-3, beta=2, kappa=0`,
`q_proc=1e-6`, `r_meas=1e-3`), the default initial SOC `x = 1.0`, and a
covariance `P = 0.09` of the same magnitude as the initial `P = 0.1`,
chosen so that `(1+lambda)·P` has an exact rational Cholesky factor. -/
def cexUKF : UKF1 :=
  { alpha := 1 / 1000, beta := 2, kappa := 0, qproc := 1 / 1000000,
    rmeas := 1 / 1000, x := 1, P := 9 / 100 }

/-- The Cholesky oracle for the counterexample: the exact factor
`L = 3/10000` of the 1×1 matrix `(1+lambda)·P = 9e-8`. -/
def cexChol : ℚ → ℚ := fun _ => 3 / 10000

/-- A tiny concrete configuration used by closed witnesses: two samples,
window length 2, batch size 1, identity scalers, constant model and
Cholesky oracles. -/
def tinyCfg : LoopCfg :=
  { seqLen := 2, batchSize := 1, capacityAh := 72, coulombEff := 199 / 200,
    dt := 1, model := fun _ => 0, tSoc := id, invVolt := id,
    chol1 := fun _ => 0, currentScaled := [0, 0], tempScaled := [0, 0],
    current := [0, 0], voltage := [4, 4], n := 2 }

/-- Oracle for the C6 witness: fails on the zero matrix, succeeds (with
factor `1`) otherwise. -/
def cexCholMat (A : Matrix (Fin 1) (Fin 1) ℚ) :
    Option (Matrix (Fin 1) (Fin 1) ℚ) :=
  if A 0 0 = 0 then none else some 1

/-- Concrete scalar filter for the C5 witness (the default
hyperparameters; a covariance whose Cholesky factor is rational). -/
def psdUKF : UKF1 :=
  { alpha := 1 / 1000, beta := 2, kappa := 0, qproc := 1 / 1000000,
    rmeas := 1 / 1000, x := 1 / 2, P := 9 / 100 }

/-- Concrete generic-filter instance for the C3 witness. -/
def cexUKFData : UKFData 1 :=
  { alpha := 1, beta := 0, kappa := 0, Q := 0, R := 1, x := 0, P := 1 }

/-- The loop-length invariant: after `k` processed iterations the
estimates plus the pending batch account for `1 + k` entries, the window
buffer holds `min k seq_len` features, and nothing is pending while still
warming up. -/
def LenInv (cfg : LoopCfg) (k : ℕ) (st : LoopState) : Prop :=
  st.socEstimates.length + st.batchBuf.length = 1 + k
  ∧ st.windowBuf.length = min k cfg.seqLen
  ∧ (k < cfg.seqLen → st.batchBuf = [])

/-- The concrete fixture of claim C7: window length `L = 4`, three input
samples, initial SOC `1/2`. -/
def cexCfg : LoopCfg :=
  { seqLen := 4, batchSize := 32, capacityAh := 72, coulombEff := 199 / 200,
    dt := 1, model := fun _ => 0, tSoc := id, invVolt := id,
    chol1 := fun _ => 0, currentScaled := [0, 0, 0], tempScaled := [0, 0, 0],
    current := [0, 0, 0], voltage := [5, 6, 7], n := 3 }

/-- Concrete pre-flush state for the C4 witness: one queued window. -/
def seqWitnessState : LoopState :=
  { socScaled := [1, 1], windowBuf := [((0 : ℚ), (0 : ℚ), (1 : ℚ))],
    batchBuf := [[((0 : ℚ), (0 : ℚ), (1 : ℚ))]],
    ukf := { alpha := 1 / 1000, beta := 2, kappa := 0, qproc := 1 / 1000000,
             rmeas := 1 / 1000, x := 1, P := 1 / 10 },
    socEstimates := [1, 1], voltagePredictions := [4],
    voltageActual := [4] }

/-- Concrete configuration reaching a flush quickly (window length 2,
batch size 1, three samples): the third sample queues the first full
window and immediately flushes it. -/
def cfgE : LoopCfg :=
  { seqLen := 2, batchSize := 1, capacityAh := 72, coulombEff := 199 / 200,
    dt := 1, model := fun _ => 0, tSoc := id, invVolt := id,
    chol1 := fun _ => 0, currentScaled := [0, 0, 0], tempScaled := [0, 0, 0],
    current := [0, 0, 0], voltage := [4, 4, 4], n := 3 }

/-! ## Helper lemmas -/

/-- A `foldl` preserves any predicate its step preserves. -/
theorem foldl_preserve {α β : Type} (p : α → Prop) (f : α → β → α)
    (h : ∀ x b, p x → p (f x b)) :
    ∀ (l : List β) (a : α), p a → p (l.foldl f a) := by
  intro l
  induction l with
  | nil => intro a ha; exact ha
  | cons b t ih => intro a ha; exact ih (f a b) (h a b ha)

/-- `getLastD` returns the default or a member of the list. -/
theorem getLastD_eq_or_mem (l : List ℚ) (d : ℚ) :
    l.getLastD d = d ∨ l.getLastD d ∈ l := by
  induction l generalizing d with
  | nil => exact Or.inl rfl
  | cons a t ih =>
    rw [List.getLastD_cons]
    rcases ih a with h | h
    · exact Or.inr (by rw [h]; exact List.mem_cons_self a t)
    · exact Or.inr (List.mem_cons_of_mem a h)

/-- Summing a mapped `List.range` is the `Finset.range` sum. -/
theorem sum_map_range {M : Type} [AddCommMonoid M] (f : ℕ → M) :
    ∀ n : ℕ, ((List.range n).map f).sum = ∑ i ∈ Finset.range n, f i := by
  intro n
  induction n with
  | zero => simp
  | succ n ih =>
    rw [List.range_succ, List.map_append, List.sum_append,
      Finset.sum_range_succ, ih]
    simp

/-- A `foldl` that accumulates two sums componentwise computes the pair of
sums. -/
theorem foldl_pair_sum {M N : Type} [AddCommMonoid M] [AddCommMonoid N]
    (f : ℕ → M) (g : ℕ → N) :
    ∀ (l : List ℕ) (a : M) (b : N),
      l.foldl (fun acc i => (acc.1 + f i, acc.2 + g i)) (a, b)
        = (a + (l.map f).sum, b + (l.map g).sum) := by
  intro l
  induction l with
  | nil => intro a b; simp
  | cons i t ih =>
    intro a b
    rw [List.foldl_cons, ih, List.map_cons, List.sum_cons, List.map_cons,
      List.sum_cons]
    simp [add_assoc]

/-- The first component returned by the scalar `update` is the clipped
value, hence lies in `[0,1]` (line 206: `np.clip(x_updated[0], 0.0, 1.0)`). -/
theorem UKF1.update_fst_bounds (chol1 : ℚ → ℚ) (s : UKF1) (z zpred : ℚ) :
    0 ≤ (s.update chol1 z zpred).1 ∧ (s.update chol1 z zpred).1 ≤ 1 :=
  clip_mem_Icc _

theorem estOK_applyUKFStep (cfg : LoopCfg) (ai : ℕ) (p : ℚ) (st : LoopState)
    (h : EstOK st) : EstOK (applyUKFStep cfg ai p st) := by
  intro e he
  rcases List.mem_append.1 he with hm | hm
  · exact h e hm
  · rcases List.mem_singleton.1 hm with rfl
    exact UKF1.update_fst_bounds _ _ _ _

theorem estOK_flushStep (cfg : LoopCfg) (i B : ℕ) (st : LoopState)
    (jp : ℕ × ℚ) (h : EstOK st) : EstOK (flushStep cfg i B st jp) := by
  unfold flushStep
  dsimp only
  split
  · exact h
  · exact estOK_applyUKFStep _ _ _ _ h

theorem estOK_flushBatch (cfg : LoopCfg) (i : ℕ) (st : LoopState)
    (h : EstOK st) : EstOK (flushBatch cfg i st) := by
  unfold flushBatch
  dsimp only
  exact foldl_preserve EstOK _ (fun x b hx => estOK_flushStep _ _ _ _ _ hx)
    _ _ h

theorem estOK_loopStep (cfg : LoopCfg) (st : LoopState) (i : ℕ)
    (h : EstOK st) : EstOK (loopStep cfg st i) := by
  unfold loopStep
  dsimp only
  split
  · intro e he
    rcases List.mem_append.1 he with hm | hm
    · exact h e hm
    · rcases List.mem_singleton.1 hm with rfl
      rcases getLastD_eq_or_mem st.socEstimates 0 with h0 | h0
      · rw [h0]; norm_num
      · exact h _ h0
  · split <;> split <;>
      first
      | exact estOK_flushBatch _ _ _ h
      | exact h

/-- The admissible SOC interval is preserved along the whole fusion loop
provided the initial SOC is admissible. -/
theorem estimateSoc_estimates_bounded (cfg : LoopCfg) (qp rm x0 P0 : ℚ)
    (sc0 : List ℚ) (h0 : 0 ≤ x0) (h1 : x0 ≤ 1) :
    ∀ e ∈ (estimateSoc cfg qp rm x0 P0 sc0).socEstimates, 0 ≤ e ∧ e ≤ 1 := by
  refine foldl_preserve EstOK _ (fun x b hx => estOK_loopStep _ _ _ hx) _ _ ?_
  intro e he
  rcases List.mem_singleton.1 he with rfl
  exact ⟨h0, h1⟩

/-- Counterexample to claim C1 as stated: at a filter state with SOC
`x = 1 ∈ [0,1]` and positive covariance (with an exact Cholesky witness
`L² = (1+lambda)·P`), a single `predict` on a small charging current
(`u = -0.54 A`, `dt = 1 s`, `capacity = 1 Ah`, `efficiency = 1`) returns
the state component `-74 ∉ [0,1]`: the sigma points straddle the upper
clip bound and the hugely negative centre weight `Wm[0] = 1 - 10⁶`
amplifies the clipping asymmetry; `predict` never clamps its returned
mean (lines 179–185 contain no clip of `x_pred`). -/
theorem predict_unclamped_cex :
    (cexChol ((1 + cexUKF.lam) * cexUKF.P)) ^ 2 = (1 + cexUKF.lam) * cexUKF.P
    ∧ 0 ≤ cexUKF.x ∧ cexUKF.x ≤ 1 ∧ 0 < cexUKF.P
    ∧ (cexUKF.predict cexChol (-27 / 50) 1 1 1).1 = -74
    ∧ (cexUKF.predict cexChol (-27 / 50) 1 1 1).1 < 0 := by
  refine ⟨?_, ?_, ?_, ?_, ?_, ?_⟩ <;>
    norm_num [cexUKF, cexChol, UKF1.predict, UKF1.sigmaPoints, UKF1.Wm,
      UKF1.Wc, UKF1.lam, clip, Fin.sum_univ_three, Fin.ext_iff]

/-- Claim C1, amended: the state returned by `update` always has its SOC
component in `[0,1]` (it is clipped there), and every SOC estimate emitted
by the fusion loop lies in `[0,1]` provided the initial SOC does (warm-up
samples repeat the initial SOC; filtered samples are `update` outputs);
but the state returned by `predict` is not clamped and can leave `[0,1]`
(see `predict_unclamped_cex`). -/
theorem update_clamped_and_loop_estimates_bounded :
    (∀ (chol1 : ℚ → ℚ) (s : UKF1) (z zpred : ℚ),
      0 ≤ (s.update chol1 z zpred).1 ∧ (s.update chol1 z zpred).1 ≤ 1)
    ∧ (∀ (cfg : LoopCfg) (qp rm x0 P0 : ℚ) (sc0 : List ℚ),
      0 ≤ x0 → x0 ≤ 1 →
      ∀ e ∈ (estimateSoc cfg qp rm x0 P0 sc0).socEstimates,
        0 ≤ e ∧ e ≤ 1) :=
  ⟨fun chol1 s z zpred => UKF1.update_fst_bounds chol1 s z zpred,
   fun cfg qp rm x0 P0 sc0 h0 h1 =>
     estimateSoc_estimates_bounded cfg qp rm x0 P0 sc0 h0 h1⟩

theorem update_clamped_and_loop_estimates_bounded_witness :
    (0 : ℚ) ≤ 1 / 2 ∧ (1 / 2 : ℚ) ≤ 1 ∧
    ∀ e ∈ (estimateSoc tinyCfg (1 / 1000000) (1 / 1000) (1 / 2) (1 / 10)
        [1 / 2, 1 / 2]).socEstimates, 0 ≤ e ∧ e ≤ 1 :=
  ⟨by norm_num, by norm_num,
   update_clamped_and_loop_estimates_bounded.2 tinyCfg (1 / 1000000)
     (1 / 1000) (1 / 2) (1 / 10) [1 / 2, 1 / 2] (by norm_num) (by norm_num)⟩

/-- Claim C9: with caching enabled, a lookup returns the cached table
exactly when the entry is younger than the TTL (`now - createdAt < ttl`),
leaving the cache unchanged and never touching the data source; an entry
at least `ttl` old is a miss: the table is fetched from the source and the
entry is overwritten by the subsequent store with the fresh timestamp. -/
theorem cache_ttl_contract {T : Type} (ttl : ℚ)
    (cache : String → Option (T × ℚ)) (key : String) (tCheck tStore : ℚ)
    (data : T) (created : ℚ) :
    (cache key = some (data, created) → tCheck - created < ttl →
      ∀ fetch, loadData true ttl cache key tCheck tStore fetch
        = some (data, cache))
    ∧ (cache key = some (data, created) → ¬tCheck - created < ttl →
      ∀ tbl, loadData true ttl cache key tCheck tStore (some tbl)
        = some (tbl, fun k =>
            if k = key then some (tbl, tStore) else cache k)) := by
  constructor
  · intro hk hlt fetch
    unfold loadData
    rw [hk]
    simp [hlt]
  · intro hk hlt tbl
    unfold loadData
    rw [hk]
    simp [hlt]

theorem cache_ttl_contract_witness :
    ((fun k : String =>
        if k = cacheKey (some "dev") "-7d" "now()" "5s" then some ((7 : ℚ), (10 : ℚ))
        else none) (cacheKey (some "dev") "-7d" "now()" "5s")
      = some ((7 : ℚ), (10 : ℚ)))
    ∧ (100 : ℚ) - 10 < 300 ∧ ¬((400 : ℚ) - 10 < 300)
    ∧ loadData true 300
        (fun k : String =>
          if k = cacheKey (some "dev") "-7d" "now()" "5s" then some ((7 : ℚ), (10 : ℚ))
          else none)
        (cacheKey (some "dev") "-7d" "now()" "5s") 100 120 (some 99)
        = some (7, fun k : String =>
            if k = cacheKey (some "dev") "-7d" "now()" "5s" then some ((7 : ℚ), (10 : ℚ))
            else none)
    ∧ loadData true 300
        (fun k : String =>
          if k = cacheKey (some "dev") "-7d" "now()" "5s" then some ((7 : ℚ), (10 : ℚ))
          else none)
        (cacheKey (some "dev") "-7d" "now()" "5s") 400 420 (some 99)
        = some (99, fun k : String =>
            if k = cacheKey (some "dev") "-7d" "now()" "5s" then some ((99 : ℚ), (420 : ℚ))
            else (fun k : String =>
              if k = cacheKey (some "dev") "-7d" "now()" "5s" then some ((7 : ℚ), (10 : ℚ))
              else none) k) :=
  ⟨by simp, by norm_num, by norm_num,
   (cache_ttl_contract 300 _ _ 100 120 7 10).1 (by simp) (by norm_num) (some 99),
   (cache_ttl_contract 300 _ _ 400 420 7 10).2 (by simp) (by norm_num) 99⟩

/-- Claim C6: when the Cholesky factorisation of `(d+lambda)·P` fails,
`_compute_sigma_points` retries exactly once on the regularised
`P + 1e-8·I`; a success of the retry produces the sigma points from the
retried factor, and a second failure propagates to the caller (`none`) —
no further regularisation or retry exists in the code path. -/
theorem sigma_cholesky_retry_policy {d : ℕ} (lam : ℚ)
    (chol : Matrix (Fin d) (Fin d) ℚ → Option (Matrix (Fin d) (Fin d) ℚ))
    (x : Fin d → ℚ) (P : Matrix (Fin d) (Fin d) ℚ) :
    (∀ L, chol (((d : ℚ) + lam) • P) = none →
      chol (((d : ℚ) + lam) • (P + regEps • (1 : Matrix (Fin d) (Fin d) ℚ)))
        = some L →
      computeSigmaPoints lam chol x P = some (mkSigmaList x L))
    ∧ (chol (((d : ℚ) + lam) • P) = none →
      chol (((d : ℚ) + lam) • (P + regEps • (1 : Matrix (Fin d) (Fin d) ℚ)))
        = none →
      computeSigmaPoints lam chol x P = none) := by
  constructor
  · intro L h1 h2
    unfold computeSigmaPoints
    rw [h1, h2]
  · intro h1 h2
    unfold computeSigmaPoints
    rw [h1, h2]

theorem sigma_cholesky_retry_policy_witness :
    (cexCholMat (((1 : ℚ) + 0) • (0 : Matrix (Fin 1) (Fin 1) ℚ)) = none)
    ∧ cexCholMat (((1 : ℚ) + 0) •
        ((0 : Matrix (Fin 1) (Fin 1) ℚ) + regEps • 1)) = some 1
    ∧ computeSigmaPoints 0 cexCholMat (0 : Fin 1 → ℚ) 0
        = some (mkSigmaList 0 1)
    ∧ ((fun _ => none : Matrix (Fin 1) (Fin 1) ℚ →
          Option (Matrix (Fin 1) (Fin 1) ℚ)) (((1 : ℚ) + 0) • (0 : Matrix (Fin 1) (Fin 1) ℚ)) = none)
    ∧ computeSigmaPoints 0 (fun _ => none) (0 : Fin 1 → ℚ)
        (0 : Matrix (Fin 1) (Fin 1) ℚ) = none := by
  have h1 : cexCholMat (((1 : ℚ) + 0) • (0 : Matrix (Fin 1) (Fin 1) ℚ))
      = none := by
    simp [cexCholMat]
  have h2 : cexCholMat (((1 : ℚ) + 0) •
      ((0 : Matrix (Fin 1) (Fin 1) ℚ) + regEps • 1)) = some 1 := by
    simp only [cexCholMat, Matrix.smul_apply, Matrix.add_apply,
      Matrix.one_apply, Matrix.zero_apply, if_pos, regEps]
    norm_num
  refine ⟨h1, h2, ?_, rfl, ?_⟩
  · exact (sigma_cholesky_retry_policy 0 cexCholMat 0 0).1 1 h1 h2
  · exact (sigma_cholesky_retry_policy 0 (fun _ => none) 0 0).2 rfl rfl

/-- Claim C10: `predict` and `update` write none of the object's fields
(`x`, `P`, `Q = q_proc`, `R = r_meas` and the hyperparameters): as state
transformers they return the object unchanged next to the method's value,
and an `update` following a `predict` whose returned pair was *not*
assigned back behaves exactly as if the `predict` had never run.  The
filter only advances through the caller's explicit assignments
`ukf.x, ukf.P = x_pred, P_pred` / `= x_updated, P_updated`
(`applyUKFStep`, mirroring lines 458–475). -/
theorem ukf_methods_write_no_fields (chol1 : ℚ → ℚ) (s : UKF1)
    (u dt capacityAh coulombEff z zpred : ℚ) :
    (s.predictM chol1 u dt capacityAh coulombEff).1 = s
    ∧ (s.updateM chol1 z zpred).1 = s
    ∧ UKF1.update chol1 (s.predictM chol1 u dt capacityAh coulombEff).1
        z zpred = s.update chol1 z zpred
    ∧ UKF1.predict chol1 (s.updateM chol1 z zpred).1
        u dt capacityAh coulombEff
        = s.predict chol1 u dt capacityAh coulombEff :=
  ⟨rfl, rfl, rfl, rfl⟩

/-- Indexing the mapped `finRange` inside a sigma-point list. -/
theorem getD_map_finRange {α : Type} {dd : ℕ} (f : Fin dd → α) (i : ℕ)
    (hi : i < dd) (dflt : α) :
    ((List.finRange dd).map f).getD i dflt = f ⟨i, hi⟩ := by
  rw [List.getD_eq_getElem?_getD, List.getElem?_map,
    List.getElem?_eq_getElem (by simpa using hi)]
  simp [List.getElem_finRange]

/-- Claim C3: for every state dimension `d ≥ 1` and hyperparameters
`(alpha, beta, kappa)`, the constructor computes
`lambda = alpha²(d+kappa) − d`, `Wm[0] = lambda/(d+lambda)`,
`Wc[0] = Wm[0] + (1 − alpha² + beta)` and `Wm[i] = Wc[i] = 1/(2(d+lambda))`
for `i ≥ 1`; and sigma-point generation returns exactly `2d+1` points with
point `0` the mean `x` and points `i` / `i+d` (for `i = 1..d`) equal to
`x ± column (i−1)` of the factor `L` returned by the Cholesky of
`(d+lambda)·P`. -/
theorem init_weights_and_sigma_structure :
    ∀ (d : ℕ), 1 ≤ d → ∀ (s : UKFData d),
      s.lam = s.alpha ^ 2 * ((d : ℚ) + s.kappa) - (d : ℚ)
      ∧ s.Wm 0 = s.lam / ((d : ℚ) + s.lam)
      ∧ s.Wc 0 = s.Wm 0 + (1 - s.alpha ^ 2 + s.beta)
      ∧ (∀ i, 1 ≤ i →
          s.Wm i = 1 / (2 * ((d : ℚ) + s.lam)) ∧ s.Wc i = s.Wm i)
      ∧ ∀ (chol : Matrix (Fin d) (Fin d) ℚ →
            Option (Matrix (Fin d) (Fin d) ℚ))
          (x : Fin d → ℚ) (P L : Matrix (Fin d) (Fin d) ℚ),
          chol (((d : ℚ) + s.lam) • P) = some L →
          computeSigmaPoints s.lam chol x P = some (mkSigmaList x L)
          ∧ (mkSigmaList x L).length = 2 * d + 1
          ∧ (mkSigmaList x L).getD 0 0 = x
          ∧ ∀ i (hi : i < d),
              (mkSigmaList x L).getD (i + 1) 0
                = (fun r => x r + L r ⟨i, hi⟩)
              ∧ (mkSigmaList x L).getD (i + 1 + d) 0
                = (fun r => x r - L r ⟨i, hi⟩) := by
  intro d _ s
  refine ⟨rfl, rfl, rfl, fun i hi => ?_, ?_⟩
  · have h0 : i ≠ 0 := by omega
    exact ⟨by simp [UKFData.Wm, h0], by simp [UKFData.Wc, UKFData.Wm, h0]⟩
  · intro chol x P L hchol
    have hsig : computeSigmaPoints s.lam chol x P = some (mkSigmaList x L) := by
      unfold computeSigmaPoints
      rw [hchol]
    refine ⟨hsig, ?_, rfl, ?_⟩
    · simp [mkSigmaList]
      omega
    · intro i hi
      have hplus : (mkSigmaList x L).getD (i + 1) 0
          = (fun r => x r + L r ⟨i, hi⟩) := by
        show (((x :: (List.finRange d).map fun j => fun r => x r + L r j))
            ++ (List.finRange d).map fun j => fun r => x r - L r j).getD
            (i + 1) 0 = _
        rw [List.getD_append _ _ _ _ (by simp; omega), List.getD_cons_succ,
          getD_map_finRange _ i hi]
      have hminus : (mkSigmaList x L).getD (i + 1 + d) 0
          = (fun r => x r - L r ⟨i, hi⟩) := by
        show (((x :: (List.finRange d).map fun j => fun r => x r + L r j))
            ++ (List.finRange d).map fun j => fun r => x r - L r j).getD
            (i + 1 + d) 0 = _
        rw [List.getD_append_right _ _ _ _ (by simp; omega)]
        have : i + 1 + d - (x :: (List.finRange d).map
            fun j => fun r => x r + L r j).length = i := by
          simp
          omega
        rw [this, getD_map_finRange _ i hi]
      exact ⟨hplus, hminus⟩

theorem init_weights_and_sigma_structure_witness :
    (1 ≤ 1
    ∧ (fun _ => some (1 : Matrix (Fin 1) (Fin 1) ℚ) :
        Matrix (Fin 1) (Fin 1) ℚ → Option (Matrix (Fin 1) (Fin 1) ℚ))
        (((1 : ℚ) + cexUKFData.lam) • cexUKFData.P) = some 1)
    ∧ (cexUKFData.lam = cexUKFData.alpha ^ 2 * ((1 : ℚ) + cexUKFData.kappa) - 1
      ∧ cexUKFData.Wm 0 = cexUKFData.lam / ((1 : ℚ) + cexUKFData.lam)
      ∧ cexUKFData.Wc 0 = cexUKFData.Wm 0 + (1 - cexUKFData.alpha ^ 2 + cexUKFData.beta)
      ∧ (∀ i, 1 ≤ i →
          cexUKFData.Wm i = 1 / (2 * ((1 : ℚ) + cexUKFData.lam))
          ∧ cexUKFData.Wc i = cexUKFData.Wm i))
    ∧ computeSigmaPoints cexUKFData.lam (fun _ => some 1) (0 : Fin 1 → ℚ)
        cexUKFData.P = some (mkSigmaList 0 1) := by
  have h := init_weights_and_sigma_structure 1 (le_refl 1) cexUKFData
  refine ⟨⟨le_refl 1, rfl⟩, ⟨h.1, h.2.1, h.2.2.1, h.2.2.2.1⟩, ?_⟩
  exact (h.2.2.2.2 (fun _ => some 1) 0 cexUKFData.P 1 rfl).1

/-- Claim C2: the `update` method, as translated statement by statement
from the code (sequential accumulation loops), computes exactly the
specification's closed formulas: sigma points regenerated from the
predicted mean/covariance, `Pzz = R + Σ Wc[i]·Δz·Δzᵗ`,
`Pxz = Σ Wc[i]·Δx·Δzᵗ`, `K = Pxz·Pzz⁻¹`, state
`x_pred + K·(z − zPred)` with the SOC component clamped to `[0,1]`, and
covariance `(P' + P'ᵗ)/2` with `P' = P_pred − K·Pzz·Kᵗ`. -/
theorem update_matches_spec_formulas :
    ∀ (d : ℕ) [NeZero d]
      (chol : Matrix (Fin d) (Fin d) ℚ → Option (Matrix (Fin d) (Fin d) ℚ))
      (s : UKFData d) (z zpred : Fin d → ℚ),
      s.update chol z zpred = s.updateSpec chol z zpred := by
  intro d _ chol s z zpred
  unfold UKFData.update UKFData.updateSpec
  cases h : computeSigmaPoints s.lam chol s.x s.P with
  | none => rfl
  | some sp =>
    dsimp only
    rw [foldl_pair_sum, sum_map_range, sum_map_range, sum_map_range,
      zero_add]

/-- Closed form of the scalar updated covariance: whenever the Cholesky
oracle returned an exact factor of `(1+lambda)·P` and `1+lambda`, `r_meas`
are positive, the covariance returned by `update` equals
`P·R/(R + P)` (in exact arithmetic `Pzz = R + P` and `Pxz = P`). -/
theorem update_matches_spec_formulas_witness :
    UKFData.update (fun _ => some 1) cexUKFData 0 0
      = UKFData.updateSpec (fun _ => some 1) cexUKFData 0 0 :=
  update_matches_spec_formulas 1 (fun _ => some 1) cexUKFData 0 0

theorem UKF1.update_snd_closed (s : UKF1) (chol1 : ℚ → ℚ) (z zpred : ℚ)
    (hL : (chol1 ((1 + s.lam) * s.P)) ^ 2 = (1 + s.lam) * s.P)
    (hlam : 0 < 1 + s.lam) (hR : 0 < s.rmeas) :
    (s.update chol1 z zpred).2 = s.P * s.rmeas / (s.rmeas + s.P) := by
  have h1 : (1 : ℚ) + s.lam ≠ 0 := ne_of_gt hlam
  have hPnn : 0 ≤ s.P := by
    have hput : s.P = (chol1 ((1 + s.lam) * s.P)) ^ 2 / (1 + s.lam) := by
      field_simp [hL]
    rw [hput]
    positivity
  have hRP : (0 : ℚ) < s.rmeas + s.P := by linarith
  have hRPne : s.rmeas + s.P ≠ 0 := ne_of_gt hRP
  simp [UKF1.update, UKF1.sigmaPoints, UKF1.Wm, UKF1.Wc,
    Fin.sum_univ_three, Fin.ext_iff]
  set L := chol1 ((1 + s.lam) * s.P) with hLdef
  have hm : s.lam / (1 + s.lam) * s.x + (1 + s.lam)⁻¹ * 2⁻¹ * (s.x + L) +
      (1 + s.lam)⁻¹ * 2⁻¹ * (s.x - L) = s.x := by
    field_simp
    ring
  rw [hm]
  have e1 : s.x + L - s.x = L := by ring
  have e2 : s.x - L - s.x = -L := by ring
  rw [e1, e2, sub_self]
  have hPzz : s.rmeas + ((s.lam / (1 + s.lam) + (1 - s.alpha ^ 2 + s.beta))
      * 0 ^ 2 + (1 + s.lam)⁻¹ * 2⁻¹ * L ^ 2 + (1 + s.lam)⁻¹ * 2⁻¹ * (-L) ^ 2)
      = s.rmeas + s.P := by
    field_simp
    rw [hL]
    ring
  have hPxz : (1 + s.lam)⁻¹ * 2⁻¹ * L * L + -((1 + s.lam)⁻¹ * 2⁻¹ * L * -L)
      = s.P := by
    field_simp
    rw [show L * L = L ^ 2 from by ring, hL]
    ring
  rw [hPzz, hPxz]
  field_simp
  ring

/-- `(M + Mᵗ)/2` is symmetric, for any square matrix `M`. -/
theorem half_add_transpose_isSymm {d : ℕ} (M : Matrix (Fin d) (Fin d) ℚ) :
    ((1 / 2 : ℚ) • (M + M.transpose)).IsSymm := by
  simp [Matrix.IsSymm, Matrix.transpose_add, Matrix.transpose_transpose,
    add_comm]

/-- Claim C5: the covariance returned by `update` is exactly symmetric
(the code symmetrises as `(P' + P'ᵗ)/2`, so the maximal asymmetry is `0`,
in particular below `1e-9`), proved for every state dimension; and it is
positive semi-definite at the deployed dimension `d = 1` — where the only
eigenvalue of the 1×1 covariance is its entry — whenever the Cholesky
factor is exact, `1 + lambda > 0` and `r_meas > 0` (both hold for the
constructed filters: `lambda = 1e-6 − 1`, `r_meas = 1e-3`): the returned
entry equals `P·r_meas/(r_meas + P) ≥ 0`. -/
theorem update_cov_symmetric_and_psd :
    (∀ (d : ℕ) [NeZero d]
      (chol : Matrix (Fin d) (Fin d) ℚ → Option (Matrix (Fin d) (Fin d) ℚ))
      (s : UKFData d) (z zpred : Fin d → ℚ)
      (r : (Fin d → ℚ) × Matrix (Fin d) (Fin d) ℚ),
      s.update chol z zpred = some r → r.2.IsSymm)
    ∧ (∀ (s : UKF1) (chol1 : ℚ → ℚ) (z zpred : ℚ),
      (chol1 ((1 + s.lam) * s.P)) ^ 2 = (1 + s.lam) * s.P →
      0 < 1 + s.lam → 0 < s.rmeas →
      0 ≤ (s.update chol1 z zpred).2) := by
  constructor
  · intro d _ chol s z zpred r h
    unfold UKFData.update at h
    cases hs : computeSigmaPoints s.lam chol s.x s.P with
    | none => rw [hs] at h; exact absurd h (by simp)
    | some sp =>
      rw [hs] at h
      rcases Option.some.inj h with rfl
      exact half_add_transpose_isSymm _
  · intro s chol1 z zpred hL hlam hR
    rw [UKF1.update_snd_closed s chol1 z zpred hL hlam hR]
    have hP : 0 ≤ s.P := by
      have hput : s.P = (chol1 ((1 + s.lam) * s.P)) ^ 2 / (1 + s.lam) := by
        field_simp [hL]
      rw [hput]
      positivity
    exact div_nonneg (mul_nonneg hP hR.le) (by linarith)

theorem update_cov_symmetric_and_psd_witness :
    (UKFData.update (fun _ => some 1) cexUKFData 0 0
      = some ((UKFData.update (fun _ => some 1) cexUKFData 0 0).get rfl))
    ∧ ((UKFData.update (fun _ => some 1) cexUKFData 0 0).get rfl).2.IsSymm
    ∧ (((fun _ : ℚ => (3 : ℚ) / 10000) ((1 + psdUKF.lam) * psdUKF.P)) ^ 2
        = (1 + psdUKF.lam) * psdUKF.P)
    ∧ (0 : ℚ) < 1 + psdUKF.lam ∧ (0 : ℚ) < psdUKF.rmeas
    ∧ 0 ≤ (psdUKF.update (fun _ => (3 : ℚ) / 10000) 4 (7 / 2)).2 := by
  have hL : (((fun _ : ℚ => (3 : ℚ) / 10000) ((1 + psdUKF.lam) * psdUKF.P)) ^ 2
      = (1 + psdUKF.lam) * psdUKF.P) := by
    norm_num [psdUKF, UKF1.lam]
  have hlam : (0 : ℚ) < 1 + psdUKF.lam := by norm_num [psdUKF, UKF1.lam]
  have hR : (0 : ℚ) < psdUKF.rmeas := by norm_num [psdUKF]
  have hget : (UKFData.update (fun _ => some 1) cexUKFData 0 0).isSome
      = true := rfl
  refine ⟨(Option.some_get hget).symm, ?_, hL, hlam, hR, ?_⟩
  · exact update_cov_symmetric_and_psd.1 1 (fun _ => some 1) cexUKFData 0 0
      _ (Option.some_get hget).symm
  · exact update_cov_symmetric_and_psd.2 psdUKF (fun _ => (3 : ℚ) / 10000)
      4 (7 / 2) hL hlam hR

/-- The last element of a nonempty replicated list. -/
theorem getLastD_replicate (m : ℕ) (a d : ℚ) :
    (List.replicate (m + 1) a).getLastD d = a := by
  induction m generalizing d with
  | zero => rfl
  | succ m ih => rw [List.replicate_succ, List.getLastD_cons, ih]

/-- As long as every processed iteration stays in warm-up
(`len(window_buffer) < seq_len`), the fusion loop only accumulates
placeholder outputs: the SOC estimates repeat the initial SOC, predicted
and actual voltage are both the raw measured voltage, the filter object
and `soc_scaled` are untouched and nothing is queued. -/
theorem warmup_run (cfg : LoopCfg) (qp rm x0 P0 : ℚ) (sc0 : List ℚ) :
    ∀ k : ℕ, k < cfg.seqLen →
    (List.range' 1 k).foldl (loopStep cfg) (initState qp rm x0 P0 sc0)
      = { socScaled := sc0,
          windowBuf := (List.range' 1 k).map fun i =>
            (cfg.currentScaled.getD i 0, cfg.tempScaled.getD i 0,
             sc0.getD (i - 1) 0),
          batchBuf := [],
          ukf := { alpha := 1 / 1000, beta := 2, kappa := 0, qproc := qp,
                   rmeas := rm, x := x0, P := P0 },
          socEstimates := List.replicate (k + 1) x0,
          voltagePredictions := (List.range' 1 k).map fun i =>
            cfg.voltage.getD i 0,
          voltageActual := (List.range' 1 k).map fun i =>
            cfg.voltage.getD i 0 } := by
  intro k
  induction k with
  | zero => intro _; rfl
  | succ k ih =>

    intro hk
    rw [List.range'_concat, List.foldl_append, ih (by omega),
      List.foldl_cons, List.foldl_nil]
    unfold loopStep
    dsimp only
    rw [if_pos (by
      simp only [List.length_append, List.length_map, List.length_range',
        List.length_singleton]
      omega)]
    simp only [List.map_append, List.map_cons, List.map_nil]
    rw [getLastD_replicate k x0 0, ← List.replicate_succ' (k + 1) x0]

/-- Claim C7, amended: for input length `n` with `1 ≤ n < L` (`seq_len`)
no UKF predict or update is performed (the filter object is returned in
its initial state and no window is ever queued), all emitted SOC outputs
equal the initial SOC, and the raw measured voltage is reported as both
actual and predicted; the voltage output arrays have length `n − 1`, but
the SOC output array has length `n` — one initial entry plus one per
processed sample — not `n − 1`: the `L = 4`, 3-sample fixture yields
`[initial, initial, initial]` (see `warmup_fixture_cex`). -/
theorem warmup_all_placeholders (cfg : LoopCfg) (qp rm x0 P0 : ℚ)
    (sc0 : List ℚ) (h1 : 1 ≤ cfg.n) (h2 : cfg.n < cfg.seqLen) :
    (estimateSoc cfg qp rm x0 P0 sc0).socEstimates
      = List.replicate cfg.n x0
    ∧ (estimateSoc cfg qp rm x0 P0 sc0).socEstimates.length = cfg.n
    ∧ (estimateSoc cfg qp rm x0 P0 sc0).voltagePredictions
      = ((List.range' 1 (cfg.n - 1)).map fun i => cfg.voltage.getD i 0)
    ∧ (estimateSoc cfg qp rm x0 P0 sc0).voltageActual
      = ((List.range' 1 (cfg.n - 1)).map fun i => cfg.voltage.getD i 0)
    ∧ (estimateSoc cfg qp rm x0 P0 sc0).voltagePredictions.length
      = cfg.n - 1
    ∧ (estimateSoc cfg qp rm x0 P0 sc0).ukf
      = { alpha := 1 / 1000, beta := 2, kappa := 0, qproc := qp,
          rmeas := rm, x := x0, P := P0 }
    ∧ (estimateSoc cfg qp rm x0 P0 sc0).batchBuf = [] := by
  have hrun := warmup_run cfg qp rm x0 P0 sc0 (cfg.n - 1) (by omega)
  have hn : cfg.n - 1 + 1 = cfg.n := by omega
  unfold estimateSoc
  rw [hrun]
  refine ⟨by rw [hn], by rw [hn]; simp, rfl, rfl, ?_, rfl, rfl⟩
  simp

/-- Counterexample to claim C7 as stated: on the claim's own fixture
(`L = 4`, 3 input samples) the SOC output is `[initial, initial,
initial]`, of length 3 = input length — not `[initial, initial]` of
length `input length − 1` (the initial estimate is emitted *before* the
loop and each of the two processed samples appends one placeholder; the
voltage arrays do have length `n − 1 = 2`). -/
theorem warmup_fixture_cex :
    (estimateSoc cexCfg (1 / 1000000) (1 / 1000) (1 / 2) (1 / 10)
        [1 / 2, 1 / 2, 1 / 2]).socEstimates = [1 / 2, 1 / 2, 1 / 2]
    ∧ (estimateSoc cexCfg (1 / 1000000) (1 / 1000) (1 / 2) (1 / 10)
        [1 / 2, 1 / 2, 1 / 2]).socEstimates.length = 3
    ∧ cexCfg.n = 3 ∧ cexCfg.seqLen = 4
    ∧ (estimateSoc cexCfg (1 / 1000000) (1 / 1000) (1 / 2) (1 / 10)
        [1 / 2, 1 / 2, 1 / 2]).socEstimates ≠ [1 / 2, 1 / 2]
    ∧ (estimateSoc cexCfg (1 / 1000000) (1 / 1000) (1 / 2) (1 / 10)
        [1 / 2, 1 / 2, 1 / 2]).socEstimates.length ≠ cexCfg.n - 1
    ∧ (estimateSoc cexCfg (1 / 1000000) (1 / 1000) (1 / 2) (1 / 10)
        [1 / 2, 1 / 2, 1 / 2]).voltagePredictions = [6, 7]
    ∧ (estimateSoc cexCfg (1 / 1000000) (1 / 1000) (1 / 2) (1 / 10)
        [1 / 2, 1 / 2, 1 / 2]).voltageActual = [6, 7] := by
  refine ⟨?_, ?_, rfl, rfl, ?_, ?_, ?_, ?_⟩ <;>
    simp [estimateSoc, initState, loopStep, cexCfg, List.range']

theorem warmup_all_placeholders_witness :
    1 ≤ cexCfg.n ∧ cexCfg.n < cexCfg.seqLen
    ∧ (estimateSoc cexCfg (1 / 1000000) (1 / 1000) (3 / 4) (1 / 10)
        [3 / 4, 3 / 4, 3 / 4]).socEstimates
      = List.replicate cexCfg.n (3 / 4) :=
  ⟨by norm_num [cexCfg], by norm_num [cexCfg],
   (warmup_all_placeholders cexCfg (1 / 1000000) (1 / 1000) (3 / 4) (1 / 10)
     [3 / 4, 3 / 4, 3 / 4] (by norm_num [cexCfg]) (by norm_num [cexCfg])).1⟩

/-! ## Output length accounting (claim C8) -/

/-- Each executed per-window body appends exactly one SOC estimate and
leaves the window and batch buffers alone. -/
theorem applyUKFStep_effects (cfg : LoopCfg) (ai : ℕ) (p : ℚ)
    (st : LoopState) :
    (applyUKFStep cfg ai p st).socEstimates.length
      = st.socEstimates.length + 1
    ∧ (applyUKFStep cfg ai p st).batchBuf = st.batchBuf
    ∧ (applyUKFStep cfg ai p st).windowBuf = st.windowBuf := by
  refine ⟨?_, rfl, rfl⟩
  simp [applyUKFStep]

/-- The flush's sequential loop over an enumerated prediction list whose
indices stay below the batch size never hits the skip guard (the resolved
indices stay `≤ i < n`), so it appends exactly one estimate per
prediction. -/
theorem flushFold_effects (cfg : LoopCfg) (i B : ℕ) (hi : i < cfg.n) :
    ∀ (preds : List ℚ) (k : ℕ) (st : LoopState), k + preds.length ≤ B →
    (((List.enumFrom k preds).foldl (flushStep cfg i B) st).socEstimates.length
      = st.socEstimates.length + preds.length)
    ∧ ((List.enumFrom k preds).foldl (flushStep cfg i B) st).batchBuf
      = st.batchBuf
    ∧ ((List.enumFrom k preds).foldl (flushStep cfg i B) st).windowBuf
      = st.windowBuf := by
  intro preds
  induction preds with
  | nil => intro k st _; exact ⟨rfl, rfl, rfl⟩
  | cons p rest ih =>
    intro k st hk
    rw [List.length_cons] at hk
    have hkB : k < B := by omega
    have hstep : flushStep cfg i B st (k, p) = applyUKFStep cfg
        ((i : ℤ) - (B : ℤ) + (k : ℤ) + 1).toNat p st := by
      unfold flushStep
      dsimp only
      rw [if_neg (by push_neg; omega)]
    rw [List.enumFrom_cons, List.foldl_cons, hstep]
    have h3 := ih (k + 1) (applyUKFStep cfg
      ((i : ℤ) - (B : ℤ) + (k : ℤ) + 1).toNat p st) (by omega)
    refine ⟨?_, ?_, ?_⟩
    · rw [h3.1, (applyUKFStep_effects cfg _ p st).1, List.length_cons]
      omega
    · rw [h3.2.1, (applyUKFStep_effects cfg _ p st).2.1]
    · rw [h3.2.2, (applyUKFStep_effects cfg _ p st).2.2]

/-- A batch flush at iteration `i < n` appends exactly one estimate per
queued window, empties the batch buffer and keeps the window buffer. -/
theorem flushBatch_effects (cfg : LoopCfg) (i : ℕ) (st : LoopState)
    (hi : i < cfg.n) :
    (flushBatch cfg i st).socEstimates.length
      = st.socEstimates.length + st.batchBuf.length
    ∧ (flushBatch cfg i st).batchBuf = []
    ∧ (flushBatch cfg i st).windowBuf = st.windowBuf := by
  unfold flushBatch
  dsimp only
  have h := flushFold_effects cfg i st.batchBuf.length hi
    (st.batchBuf.map cfg.model) 0 st (by simp)
  rw [← List.enum_eq_enumFrom] at h
  exact ⟨by rw [h.1]; simp, rfl, h.2.2⟩

theorem lenInv_step (cfg : LoopCfg) (k i : ℕ) (st : LoopState)
    (h : LenInv cfg k st) (hi : i < cfg.n) :
    LenInv cfg (k + 1) (loopStep cfg st i) := by
  obtain ⟨hlen, hwin, hwarm⟩ := h
  unfold loopStep
  dsimp only
  by_cases hc : (st.windowBuf ++ [(cfg.currentScaled.getD i 0,
      cfg.tempScaled.getD i 0, st.socScaled.getD (i - 1) 0)]).length
      < cfg.seqLen
  · rw [if_pos hc]
    have hlt : k + 1 < cfg.seqLen := by
      rw [List.length_append, hwin] at hc
      simp at hc
      omega
    refine ⟨?_, ?_, fun _ => hwarm (by omega)⟩
    · simp only [List.length_append, List.length_singleton]
      omega
    · simp only [List.length_append, hwin, List.length_singleton]
      omega
  · rw [if_neg hc]
    have hge : cfg.seqLen ≤ k + 1 := by
      rw [List.length_append, hwin] at hc
      simp at hc
      omega
    have hwb2 : (if cfg.seqLen < (st.windowBuf ++ [(cfg.currentScaled.getD i 0,
        cfg.tempScaled.getD i 0, st.socScaled.getD (i - 1) 0)]).length then
          (st.windowBuf ++ [(cfg.currentScaled.getD i 0,
            cfg.tempScaled.getD i 0, st.socScaled.getD (i - 1) 0)]).drop 1
        else st.windowBuf ++ [(cfg.currentScaled.getD i 0,
          cfg.tempScaled.getD i 0, st.socScaled.getD (i - 1) 0)]).length
        = min (k + 1) cfg.seqLen := by
      split
      · next hyes =>
        rw [List.length_append, hwin, List.length_singleton] at hyes
        simp only [List.length_drop, List.length_append, hwin,
          List.length_singleton]
        omega
      · next hno =>
        rw [List.length_append, hwin, List.length_singleton] at hno
        simp only [List.length_append, hwin, List.length_singleton]
        omega
    by_cases hf : cfg.batchSize ≤ (st.batchBuf ++ [if cfg.seqLen
        < (st.windowBuf ++ [(cfg.currentScaled.getD i 0,
          cfg.tempScaled.getD i 0, st.socScaled.getD (i - 1) 0)]).length then
            (st.windowBuf ++ [(cfg.currentScaled.getD i 0,
              cfg.tempScaled.getD i 0, st.socScaled.getD (i - 1) 0)]).drop 1
          else st.windowBuf ++ [(cfg.currentScaled.getD i 0,
            cfg.tempScaled.getD i 0, st.socScaled.getD (i - 1) 0)]]).length
        ∨ i = cfg.n - 1
    · rw [if_pos hf]
      refine ⟨?_, ?_, fun _ => (flushBatch_effects cfg i _ hi).2.1⟩
      · rw [(flushBatch_effects cfg i _ hi).1,
          (flushBatch_effects cfg i _ hi).2.1]
        simp only [List.length_append, List.length_singleton, List.length_nil]
        omega
      · rw [(flushBatch_effects cfg i _ hi).2.2]
        exact hwb2
    · rw [if_neg hf]
      refine ⟨?_, hwb2, fun hcon => absurd hcon (by omega)⟩
      simp only [List.length_append, List.length_singleton]
      omega

theorem loop_length_run (cfg : LoopCfg) (qp rm x0 P0 : ℚ) (sc0 : List ℚ) :
    ∀ k, k ≤ cfg.n - 1 →
    LenInv cfg k ((List.range' 1 k).foldl (loopStep cfg)
      (initState qp rm x0 P0 sc0)) := by
  intro k
  induction k with
  | zero => intro _; exact ⟨by rfl, by simp [initState], fun _ => rfl⟩
  | succ k ih =>
    intro hk
    rw [List.range'_concat, List.foldl_append, List.foldl_cons,
      List.foldl_nil]
    exact lenInv_step cfg k (1 + 1 * k) _ (ih (by omega)) (by omega)

/-- Output-length accounting of the intent-repaired loop: with line 465
reading its row's scalar (as the sequential sibling does), the fusion
loop emits exactly one SOC estimate per input sample (the initial
estimate plus one per processed row, warm-up placeholders included):
`len(soc_estimates) = len(data)`.  The batched code as written never gets
that far on inputs reaching a flush — see `soc_estimates_crash_on_flush`. -/
theorem soc_estimates_length (cfg : LoopCfg) (qp rm x0 P0 : ℚ)
    (sc0 : List ℚ) (h1 : 1 ≤ cfg.n) :
    (estimateSoc cfg qp rm x0 P0 sc0).socEstimates.length = cfg.n := by
  unfold estimateSoc
  by_cases h2 : cfg.n = 1
  · rw [h2]
    rfl
  · obtain ⟨k, hk⟩ : ∃ k, cfg.n - 1 = k + 1 := ⟨cfg.n - 2, by omega⟩
    rw [hk, List.range'_concat, List.foldl_append, List.foldl_cons,
      List.foldl_nil]
    set S := (List.range' 1 k).foldl (loopStep cfg)
      (initState qp rm x0 P0 sc0) with hS
    have hinv := loop_length_run cfg qp rm x0 P0 sc0 k (by omega)
    rw [← hS] at hinv
    have hstep := lenInv_step cfg k (1 + 1 * k) S hinv (by omega)
    obtain ⟨hlen, hwin, hwarm⟩ := hstep
    by_cases hws : k + 1 < cfg.seqLen
    · rw [hwarm hws] at hlen
      simp only [List.length_nil] at hlen
      omega
    · have hbb : (loopStep cfg S (1 + 1 * k)).batchBuf = [] := by
        unfold loopStep
        dsimp only
        rw [if_neg (by
          simp only [List.length_append, hinv.2.1, List.length_singleton]
          omega)]
        rw [if_pos (Or.inr (by omega))]
        rfl
      rw [hbb] at hlen
      simp only [List.length_nil] at hlen
      omega

theorem soc_estimates_length_witness :
    1 ≤ tinyCfg.n
    ∧ (estimateSoc tinyCfg (1 / 1000000) (1 / 1000) (1 / 2) (1 / 10)
        [1 / 2, 1 / 2]).socEstimates.length = tinyCfg.n :=
  ⟨by norm_num [tinyCfg],
   soc_estimates_length tinyCfg (1 / 1000000) (1 / 1000) (1 / 2) (1 / 10)
     [1 / 2, 1 / 2] (by norm_num [tinyCfg])⟩

/-! ## Erasure of the provenance tags (claim C4, part 1) -/

/-- Reading the projected `soc_scaled` array is projecting the read. -/
theorem getD_map_fst (l : List TCell) (n : ℕ) :
    (l.map Prod.fst).getD n 0 = (l.getD n ((0 : ℚ), (none : Option ℕ))).1 := by
  rw [List.getD_eq_getElem?_getD, List.getD_eq_getElem?_getD,
    List.getElem?_map]
  cases l[n]? <;> rfl

theorem proj_applyUKFStep (cfg : LoopCfg) (b ai : ℕ) (p : ℚ)
    (st : TLoopState) :
    projState (applyUKFStepT cfg b ai p st)
      = applyUKFStep cfg ai p (projState st) := by
  unfold applyUKFStepT applyUKFStep projState
  dsimp only
  rw [List.map_set]

theorem proj_flushStep (cfg : LoopCfg) (b i B : ℕ) (st : TLoopState)
    (jp : ℕ × ℚ) :
    projState (flushStepT cfg b i B st jp)
      = flushStep cfg i B (projState st) jp := by
  unfold flushStepT flushStep
  dsimp only
  split
  · rfl
  · exact proj_applyUKFStep cfg b _ jp.2 st

theorem proj_flushFold (cfg : LoopCfg) (b i B : ℕ) :
    ∀ (l : List (ℕ × ℚ)) (st : TLoopState),
    projState (l.foldl (flushStepT cfg b i B) st)
      = l.foldl (flushStep cfg i B) (projState st) := by
  intro l
  induction l with
  | nil => intro st; rfl
  | cons jp t ih =>
    intro st
    rw [List.foldl_cons, List.foldl_cons, ih, proj_flushStep]

theorem proj_flushBatch (cfg : LoopCfg) (i : ℕ) (st : TLoopState) :
    projState (flushBatchT cfg i st) = flushBatch cfg i (projState st) := by
  unfold flushBatchT flushBatch
  dsimp only
  have hB : (projState st).batchBuf.length = st.batchBuf.length := by
    simp [projState]
  have hpreds : (projState st).batchBuf.map cfg.model
      = (st.batchBuf.map projWindow).map cfg.model := rfl
  rw [hpreds, hB]
  have hfold := proj_flushFold cfg st.batchNo i st.batchBuf.length
    ((st.batchBuf.map projWindow).map cfg.model).enum st
  cases hfe : ((st.batchBuf.map projWindow).map cfg.model).enum.foldl
      (flushStepT cfg st.batchNo i st.batchBuf.length) st with
  | mk a b c d e f g h =>
    rw [hfe] at hfold
    rw [← hfold]
    rfl

theorem proj_loopStep (cfg : LoopCfg) (st : TLoopState) (i : ℕ) :
    projState (loopStepT cfg st i) = loopStep cfg (projState st) i := by
  unfold loopStepT loopStep
  dsimp only
  set fT : TFeature := (cfg.currentScaled.getD i 0, cfg.tempScaled.getD i 0,
    st.socScaled.getD (i - 1) ((0 : ℚ), (none : Option ℕ))) with hfT
  have hfeat : (cfg.currentScaled.getD i 0, cfg.tempScaled.getD i 0,
      (projState st).socScaled.getD (i - 1) 0) = projFeature fT := by
    unfold projState projFeature
    dsimp only
    rw [getD_map_fst]
  rw [hfeat]
  have hlen : ((projState st).windowBuf ++ [projFeature fT]).length
      = (st.windowBuf ++ [fT]).length := by
    simp [projState]
  rw [hlen]
  by_cases hc : (st.windowBuf ++ [fT]).length < cfg.seqLen
  · rw [if_pos hc, if_pos hc]
    unfold projState
    dsimp only
    rw [List.map_append]
    rfl
  · rw [if_neg hc, if_neg hc]
    set wb2T : List TFeature := if cfg.seqLen < (st.windowBuf ++ [fT]).length
      then (st.windowBuf ++ [fT]).drop 1 else st.windowBuf ++ [fT] with hwb2T
    have hwb2 : (if cfg.seqLen < (st.windowBuf ++ [fT]).length
        then ((projState st).windowBuf ++ [projFeature fT]).drop 1
        else (projState st).windowBuf ++ [projFeature fT])
        = List.map projFeature wb2T := by
      rw [hwb2T]
      split
      · unfold projState
        dsimp only
        rw [List.map_drop, List.map_append]
        rfl
      · unfold projState
        dsimp only
        rw [List.map_append]
        rfl
    rw [hwb2]
    have hlen3 : ((projState st).batchBuf
        ++ [List.map projFeature wb2T]).length
        = (st.batchBuf ++ [wb2T]).length := by
      simp [projState]
    rw [hlen3]
    have hst1 : projState ({ st with
          windowBuf := wb2T
          batchBuf := st.batchBuf ++ [wb2T] } : TLoopState)
        = ({ projState st with
             windowBuf := List.map projFeature wb2T
             batchBuf := (projState st).batchBuf
               ++ [List.map projFeature wb2T] } : LoopState) := by
      unfold projState
      dsimp only
      rw [List.map_append]
      rfl
    split
    · rw [proj_flushBatch, hst1]
    · exact hst1

/-- Tag erasure commutes with the whole loop: replaying `estimate_soc`
with provenance tags and then dropping them is exactly `estimate_soc`. -/
theorem proj_run (cfg : LoopCfg) (qp rm x0 P0 : ℚ) (sc0 : List ℚ) :
    ∀ k : ℕ,
    projState ((List.range' 1 k).foldl (loopStepT cfg)
      (initStateT qp rm x0 P0 sc0))
      = (List.range' 1 k).foldl (loopStep cfg) (initState qp rm x0 P0 sc0) := by
  intro k
  induction k with
  | zero =>
    simp only [List.range', List.foldl_nil]
    unfold projState initStateT initState
    dsimp only
    rw [List.map_map,
      show (Prod.fst ∘ fun v : ℚ => (v, (none : Option ℕ))) = id from rfl,
      List.map_id, List.map_nil, List.map_nil]
  | succ k ih =>
    rw [List.range'_concat]
    simp only [List.foldl_append, List.foldl_cons, List.foldl_nil]
    rw [proj_loopStep, ih]

/-! ## The provenance invariant (claim C4, part 2) -/

theorem tagBefore_mono {b b' : ℕ} {c : TCell} (h : TagBefore b c)
    (hb : b ≤ b') : TagBefore b' c :=
  fun t ht => lt_of_lt_of_le (h t ht) hb

theorem tagBefore_getD {b : ℕ} {l : List TCell}
    (h : ∀ c ∈ l, TagBefore b c) (n : ℕ) :
    TagBefore b (l.getD n ((0 : ℚ), (none : Option ℕ))) := by
  rw [List.getD_eq_getElem?_getD]
  cases hx : l[n]? with
  | none => intro t ht; exact absurd ht (by simp)
  | some c => exact h c (List.getElem?_mem hx)

theorem tinv_flushBatchT (cfg : LoopCfg) (i : ℕ) (st : TLoopState)
    (h : TInv st) : TInv (flushBatchT cfg i st) := by
  obtain ⟨hsc, hwb, _⟩ := h
  unfold flushBatchT
  dsimp only
  have hfold := foldl_preserve
    (fun st' : TLoopState =>
      (∀ c ∈ st'.socScaled, TagBefore (st.batchNo + 1) c)
      ∧ (∀ f ∈ st'.windowBuf, TagBefore (st.batchNo + 1) f.2.2))
    (flushStepT cfg st.batchNo i st.batchBuf.length)
    (fun x jp hx => by
      obtain ⟨hx1, hx2⟩ := hx
      unfold flushStepT
      dsimp only
      split
      · exact ⟨hx1, hx2⟩
      · unfold applyUKFStepT
        dsimp only
        refine ⟨?_, hx2⟩
        intro c hc
        rcases List.mem_or_eq_of_mem_set hc with hc' | rfl
        · exact hx1 c hc'
        · intro t ht
          simp only [Option.some.injEq] at ht
          omega)
    (((st.batchBuf.map projWindow).map cfg.model).enum) st
    ⟨fun c hc => tagBefore_mono (hsc c hc) (by omega),
     fun f hf => tagBefore_mono (hwb f hf) (by omega)⟩
  exact ⟨hfold.1, hfold.2, fun w hw => absurd hw (List.not_mem_nil w)⟩

theorem tinv_loopStepT (cfg : LoopCfg) (st : TLoopState) (i : ℕ)
    (h : TInv st) : TInv (loopStepT cfg st i) := by
  obtain ⟨hsc, hwb, hbb⟩ := h
  unfold loopStepT
  dsimp only
  set fT : TFeature := (cfg.currentScaled.getD i 0, cfg.tempScaled.getD i 0,
    st.socScaled.getD (i - 1) ((0 : ℚ), (none : Option ℕ))) with hfT
  have hfeat : TagBefore st.batchNo fT.2.2 := tagBefore_getD hsc (i - 1)
  have hwbAll : ∀ f ∈ st.windowBuf ++ [fT], TagBefore st.batchNo f.2.2 := by
    intro f hf
    rcases List.mem_append.1 hf with hf' | hf'
    · exact hwb f hf'
    · rcases List.mem_singleton.1 hf' with rfl
      exact hfeat
  split
  · exact ⟨hsc, hwbAll, hbb⟩
  · set wb2 : List TFeature :=
      if cfg.seqLen < (st.windowBuf ++ [fT]).length
      then (st.windowBuf ++ [fT]).drop 1 else st.windowBuf ++ [fT]
      with hwb2set
    have hwb2 : ∀ f ∈ wb2, TagBefore st.batchNo f.2.2 := by
      intro f hf
      rw [hwb2set] at hf
      have hf2 : f ∈ st.windowBuf ++ [fT] := by
        revert hf
        split
        · exact fun hf => List.mem_of_mem_drop hf
        · exact fun hf => hf
      exact hwbAll f hf2
    have hst1 : TInv ({ st with
        windowBuf := wb2
        batchBuf := st.batchBuf ++ [wb2] } : TLoopState) := by
      refine ⟨hsc, hwb2, ?_⟩
      intro w hw
      rcases List.mem_append.1 hw with hw' | hw'
      · exact hbb w hw'
      · rcases List.mem_singleton.1 hw' with rfl
        exact hwb2
    split
    · exact tinv_flushBatchT cfg i _ hst1
    · exact hst1

/-- The provenance invariant holds after every prefix of the tagged run. -/
theorem tinv_run (cfg : LoopCfg) (qp rm x0 P0 : ℚ) (sc0 : List ℚ) (k : ℕ) :
    TInv ((List.range' 1 k).foldl (loopStepT cfg)
      (initStateT qp rm x0 P0 sc0)) := by
  refine foldl_preserve TInv _ (fun x b hx => tinv_loopStepT cfg x b hx) _ _
    ⟨?_, ?_, ?_⟩
  · intro c hc
    rcases List.mem_map.1 hc with ⟨v, _, rfl⟩
    intro t ht
    exact absurd ht (by simp)
  · intro f hf
    exact absurd hf (List.not_mem_nil f)
  · intro w hw
    exact absurd hw (List.not_mem_nil w)

/-! ## Sequential order of the flushed updates (claim C4, part 3) -/

theorem flushFold_seq (cfg : LoopCfg) (i B : ℕ) (hin : i < cfg.n) :
    ∀ (preds : List ℚ) (k : ℕ) (st : LoopState), k + preds.length ≤ B →
      B ≤ i + k + 1 →
      (List.enumFrom k preds).foldl (flushStep cfg i B) st
        = seqUpdates cfg (i + 1 + k - B) st preds := by
  intro preds
  induction preds with
  | nil => intro k st _ _; rfl
  | cons p rest ih =>
    intro k st hk hB
    rw [List.length_cons] at hk
    rw [List.enumFrom_cons, List.foldl_cons]
    have hstep : flushStep cfg i B st (k, p)
        = applyUKFStep cfg (i + 1 + k - B) p st := by
      unfold flushStep
      dsimp only
      rw [if_neg (by push_neg; omega)]
      have htn : ((i : ℤ) - (B : ℤ) + (k : ℤ) + 1).toNat = i + 1 + k - B := by
        omega
      rw [htn]
    rw [hstep, ih (k + 1) _ (by omega) (by omega)]
    show seqUpdates cfg (i + 1 + (k + 1) - B) _ rest
      = seqUpdates cfg ((i + 1 + k - B) + 1) _ rest
    have harith : i + 1 + (k + 1) - B = (i + 1 + k - B) + 1 := by omega
    rw [harith]

/-- A flush processes its batch strictly sequentially, in submission
order: it equals the reference `seqUpdates` recursion — the single
batched model call, then the per-window predict/update/write chain at
consecutive indices `i+1-B, …, i` — followed by clearing the batch. -/
theorem flushBatch_seq (cfg : LoopCfg) (i : ℕ) (st : LoopState)
    (hB : st.batchBuf.length ≤ i) (hin : i < cfg.n) :
    flushBatch cfg i st
      = { seqUpdates cfg (i + 1 - st.batchBuf.length) st
            (st.batchBuf.map cfg.model) with batchBuf := [] } := by
  unfold flushBatch
  dsimp only
  have h := flushFold_seq cfg i st.batchBuf.length hin
    (st.batchBuf.map cfg.model) 0 st (by simp) (by omega)
  rw [← List.enum_eq_enumFrom, Nat.add_zero] at h
  rw [h]

/-- The batching data-flow discipline of the *intended* (repaired)
semantics, the design spec §4.6 documents: (1) the tagged replay erases
to the repaired loop, and after every prefix of iterations the
provenance invariant holds — every feature inside every queued window
carries a `soc_scaled` value present before the loop or written by a
strictly earlier batch, never an estimate of the batch being flushed;
and (2) a repaired flush equals the reference sequential recursion
`seqUpdates` in submission order at the consecutive indices `i+1-B, …, i`.
The batched code as written never exhibits this behaviour: every real
flush raises at line 465 before its first update — that is claim C4's
finding, `flush_crash_before_updates`. -/
theorem batch_windows_use_pre_batch_estimates :
    (∀ (cfg : LoopCfg) (qp rm x0 P0 : ℚ) (sc0 : List ℚ) (k : ℕ),
      projState ((List.range' 1 k).foldl (loopStepT cfg)
        (initStateT qp rm x0 P0 sc0))
        = (List.range' 1 k).foldl (loopStep cfg) (initState qp rm x0 P0 sc0)
      ∧ TInv ((List.range' 1 k).foldl (loopStepT cfg)
          (initStateT qp rm x0 P0 sc0)))
    ∧ (∀ (cfg : LoopCfg) (i : ℕ) (st : LoopState),
      st.batchBuf.length ≤ i → i < cfg.n →
      flushBatch cfg i st
        = { seqUpdates cfg (i + 1 - st.batchBuf.length) st
              (st.batchBuf.map cfg.model) with batchBuf := [] }) :=
  ⟨fun cfg qp rm x0 P0 sc0 k =>
    ⟨proj_run cfg qp rm x0 P0 sc0 k, tinv_run cfg qp rm x0 P0 sc0 k⟩,
   fun cfg i st hB hin => flushBatch_seq cfg i st hB hin⟩

theorem batch_windows_use_pre_batch_estimates_witness :
    seqWitnessState.batchBuf.length ≤ 1 ∧ 1 < tinyCfg.n
    ∧ flushBatch tinyCfg 1 seqWitnessState
      = { seqUpdates tinyCfg (1 + 1 - seqWitnessState.batchBuf.length)
            seqWitnessState (seqWitnessState.batchBuf.map tinyCfg.model)
          with batchBuf := [] }
    ∧ TInv ((List.range' 1 1).foldl (loopStepT tinyCfg)
        (initStateT (1 / 1000000) (1 / 1000) 1 (1 / 10) [1, 1])) :=
  ⟨by norm_num [seqWitnessState], by norm_num [tinyCfg],
   batch_windows_use_pre_batch_estimates.2 tinyCfg 1 seqWitnessState
     (by norm_num [seqWitnessState]) (by norm_num [tinyCfg]),
   (batch_windows_use_pre_batch_estimates.1 tinyCfg (1 / 1000000) (1 / 1000)
     1 (1 / 10) [1, 1] 1).2⟩

/-- Claim C4 (code bug): the claimed strictly-sequential post-batch
processing never happens in the batched code as written.  Every row of
the `(B, 1)` batched model output has shape `(1,)`, and the flush body
raises `IndexError` at line 465 (`pred[0, 0]`) on every such row — before
any UKF update, voltage output or SOC estimate — so every flush dies at
its first window (shown at a concrete pre-flush state with one queued
window).  The claim describes the intended design (spec §4.6), realised
by the sequential sibling implementation and, for the repaired read,
proved by `batch_windows_use_pre_batch_estimates`. -/
theorem flush_crash_before_updates :
    (∀ (cfg : LoopCfg) (ai : ℕ) (v : ℚ) (st : LoopState),
      applyUKFStepE cfg ai (NpVal.arr [NpVal.scalar v]) st = none)
    ∧ flushBatchE tinyCfg 1 seqWitnessState = none := by
  constructor
  · intro cfg ai v st
    rfl
  · rfl

/-- Claim C8 (code bug): on any input that reaches a flush (length
`≥ seq_len + 1`; 65 samples at the default `seq_len = 64`) `estimate_soc`
raises `IndexError` at line 465 during its first flush and returns no
arrays at all, so the SOC estimate sequence does not have length equal to
the input length — it does not exist.  Concretely: window length 2, batch
size 1, a non-empty 3-sample input. -/
theorem soc_estimates_crash_on_flush :
    1 ≤ cfgE.n
    ∧ estimateSocE cfgE (1 / 1000000) (1 / 1000) (1 / 2) (1 / 10)
        [1 / 2, 1 / 2, 1 / 2] = none := by
  refine ⟨by norm_num [cfgE], ?_⟩
  simp [estimateSocE, loopStepE, flushBatchE, flushStepE, applyUKFStepE,
    NpVal.index2, NpVal.index, NpVal.toScalar, cfgE, initState,
    List.range']

end SOC
